import Mathlib

/-!
Verification development for the dreamup-ai image-service repository.

The service is a TypeScript/Fastify image-transformation read-through cache.
This file shallowly embeds the code that the specification's claims are
about:

* the variant key codec `getFilenameForImage` / `getKeyForImage` /
  `getParamsFromKey` (src/crud.ts),
* the best-source selection `getBestImageByID` (src/crud.ts),
* the transform decision logic `coerceToRequested` and the
  `GET /image/:id.:ext`, `POST /image` and `DELETE image/:id` route handlers
  (src/routes/image.ts),
* the Ajv-based query validation wiring (src/types.ts), and
* the bucket read helper `getImageFromBucketByKey` (src/crud.ts).

JavaScript strings are modelled as `List Char`; the handful of
`String.prototype.split` / `Array.prototype.join` operations used by the
code (always with one-character separators) are modelled by `splitOnCh` and
`joinCh` below.  JavaScript number-to-string conversion of the naturals that
occur in keys is modelled by `natToChars`, and the number coercion performed
by Ajv (`coerceTypes: true`) on decimal strings by `parseNat`.
-/

namespace ImageService

/-- JavaScript strings are modelled as lists of characters. -/
abbrev JStr := List Char

/-- Embed a Lean string literal as a modelled JavaScript string. -/
def strOf (s : String) : JStr := s.data

/-- Model of `str.split(sep)` for a one-character separator `c`, as used by
`getParamsFromKey` with the separators `"."`, `"_"`, `"-"` and `":"`. -/
def splitOnCh (c : Char) : JStr → List JStr
  | [] => [[]]
  | x :: xs =>
    if x = c then [] :: splitOnCh c xs
    else
      match splitOnCh c xs with
      | [] => [[x]]
      | y :: ys => (x :: y) :: ys

/-- Model of `arr.join(sep)` for a one-character separator `c`. -/
def joinCh (c : Char) : List JStr → JStr
  | [] => []
  | [p] => p
  | p :: ps => p ++ c :: joinCh c ps

theorem splitOnCh_ne_nil (c : Char) (l : JStr) : splitOnCh c l ≠ [] := by
  induction l with
  | nil => simp [splitOnCh]
  | cons x xs ih =>
    simp only [splitOnCh]
    split
    · simp
    · match h : splitOnCh c xs with
      | [] => simp
      | y :: ys => simp

/-- Splitting distributes over an occurrence of the separator. -/
theorem splitOnCh_append (c : Char) (xs ys : JStr) :
    splitOnCh c (xs ++ c :: ys) = splitOnCh c xs ++ splitOnCh c ys := by
  induction xs with
  | nil => simp [splitOnCh]
  | cons x xs ih =>
    by_cases hxc : x = c
    · simp only [List.cons_append, splitOnCh, if_pos hxc, List.append_eq, ih]
    · simp only [List.cons_append, splitOnCh, if_neg hxc, List.append_eq, ih]
      match h : splitOnCh c xs with
      | [] => exact absurd h (splitOnCh_ne_nil c xs)
      | y :: ys' => simp

/-- A string free of the separator splits into a single piece. -/
theorem splitOnCh_eq_single {c : Char} {l : JStr} (h : c ∉ l) :
    splitOnCh c l = [l] := by
  induction l with
  | nil => rfl
  | cons x xs ih =>
    simp only [List.mem_cons, not_or] at h
    have hxc : ¬ x = c := fun hx => h.1 hx.symm
    simp only [splitOnCh, if_neg hxc, ih h.2]

/-- Joining the pieces of a split recovers the original string. -/
theorem joinCh_splitOnCh (c : Char) (l : JStr) :
    joinCh c (splitOnCh c l) = l := by
  induction l with
  | nil => rfl
  | cons x xs ih =>
    simp only [splitOnCh]
    split
    · rename_i hxc
      subst hxc
      match h : splitOnCh x xs with
      | [] => exact absurd h (splitOnCh_ne_nil x xs)
      | y :: ys =>
        rw [h] at ih
        simpa [joinCh] using ih
    · match h : splitOnCh c xs with
      | [] => exact absurd h (splitOnCh_ne_nil c xs)
      | y :: ys =>
        rw [h] at ih
        cases ys with
        | nil => simpa [joinCh] using ih
        | cons z zs => simpa [joinCh] using ih

/-- Splitting the join of separator-free nonempty pieces recovers the pieces. -/
theorem splitOnCh_joinCh {c : Char} {parts : List JStr}
    (hne : parts ≠ []) (hfree : ∀ p ∈ parts, c ∉ p) :
    splitOnCh c (joinCh c parts) = parts := by
  induction parts with
  | nil => exact absurd rfl hne
  | cons p ps ih =>
    cases ps with
    | nil =>
      simp only [joinCh]
      exact splitOnCh_eq_single (hfree p (by simp))
    | cons q qs =>
      have hjoin : joinCh c (p :: q :: qs) = p ++ c :: joinCh c (q :: qs) := rfl
      rw [hjoin, splitOnCh_append, splitOnCh_eq_single (hfree p (by simp))]
      rw [ih (by simp) (fun r hr => hfree r (by simp [hr]))]
      rfl

/-- Fuel-based decimal renderer (the fuel makes it structurally recursive,
so that concrete keys evaluate inside the kernel). -/
def natToCharsCore : Nat → Nat → JStr → JStr
  | 0, _, acc => acc
  | fuel + 1, n, acc =>
    if n < 10 then Nat.digitChar (n % 10) :: acc
    else natToCharsCore fuel (n / 10) (Nat.digitChar (n % 10) :: acc)

/-- Model of JavaScript number-to-string conversion for the natural numbers
that appear in image parameters (template literals such as
`` `${k}:${params[k]}` `` in `getFilenameForImage`). -/
def natToChars (n : Nat) : JStr := natToCharsCore (n + 1) n []

theorem natToCharsCore_eq_digits (n : Nat) : ∀ (fuel : Nat) (acc : JStr),
    n < fuel →
    natToCharsCore fuel n acc =
      (if n = 0 then ['0']
       else ((Nat.digits 10 n).map Nat.digitChar).reverse) ++ acc := by
  induction n using Nat.strong_induction_on with
  | _ n ih =>
    intro fuel acc hf
    match fuel with
    | 0 => omega
    | f + 1 =>
      by_cases h10 : n < 10
      · simp only [natToCharsCore, if_pos h10]
        by_cases h0 : n = 0
        · subst h0; simp; rfl
        · rw [if_neg h0, Nat.digits_def' (by norm_num : 1 < 10)
            (Nat.pos_of_ne_zero h0)]
          have hdiv : n / 10 = 0 := Nat.div_eq_of_lt h10
          have hmod : n % 10 = n := Nat.mod_eq_of_lt h10
          rw [hdiv, hmod]
          simp
      · have hne : n ≠ 0 := by omega
        simp only [natToCharsCore, if_neg h10, if_neg hne]
        have hdivlt : n / 10 < n := Nat.div_lt_self (by omega) (by norm_num)
        have hdivne : n / 10 ≠ 0 := by
          intro h
          have := (Nat.div_eq_zero_iff (by norm_num : 0 < 10)).mp h
          omega
        rw [ih (n / 10) hdivlt f _ (by omega), if_neg hdivne]
        rw [Nat.digits_def' (by norm_num : 1 < 10) (Nat.pos_of_ne_zero hne)]
        simp [List.append_assoc]

theorem natToChars_eq_digits (n : Nat) :
    natToChars n =
      if n = 0 then ['0']
      else ((Nat.digits 10 n).map Nat.digitChar).reverse := by
  rw [natToChars, natToCharsCore_eq_digits n (n + 1) [] (by omega)]
  simp

/-- Model of the string-to-number coercion Ajv performs for `type: number`
schema fields when compiled with `coerceTypes: true` (`coerceValidator` in
src/types.ts), restricted to the decimal naturals produced by key encoding. -/
def parseNat (l : JStr) : Option Nat :=
  if l = [] then none
  else if l.all Char.isDigit then
    some (l.foldl (fun a c => 10 * a + (c.toNat - 48)) 0)
  else none

theorem digitChar_isDigit {d : Nat} (h : d < 10) :
    (Nat.digitChar d).isDigit = true := by
  interval_cases d <;> decide

theorem digitVal_digitChar {d : Nat} (h : d < 10) :
    (Nat.digitChar d).toNat - 48 = d := by
  interval_cases d <;> decide

theorem mem_natToChars_isDigit {n : Nat} {c : Char} (h : c ∈ natToChars n) :
    c.isDigit = true := by
  rw [natToChars_eq_digits] at h
  split at h
  · simp only [List.mem_singleton] at h
    subst h; decide
  · simp only [List.mem_reverse, List.mem_map] at h
    obtain ⟨d, hd, rfl⟩ := h
    exact digitChar_isDigit (Nat.digits_lt_base (by norm_num) hd)

theorem foldr_eq_ofDigits (ds : List Nat) :
    ds.foldr (fun d a => 10 * a + d) 0 = Nat.ofDigits 10 ds := by
  induction ds with
  | nil => simp [Nat.ofDigits]
  | cons d ds ih =>
    simp only [List.foldr_cons, ih, Nat.ofDigits_cons]
    ring

/-- Decimal round-trip: parsing the rendered form of a natural recovers it. -/
theorem parseNat_natToChars (n : Nat) : parseNat (natToChars n) = some n := by
  by_cases hn : n = 0
  · subst hn; decide
  · have hne : natToChars n ≠ [] := by
      rw [natToChars_eq_digits, if_neg hn]
      simp only [ne_eq, List.reverse_eq_nil_iff, List.map_eq_nil_iff]
      exact Nat.digits_ne_nil_iff_ne_zero.mpr hn
    have hall : (natToChars n).all Char.isDigit = true := by
      rw [List.all_eq_true]
      exact fun c hc => mem_natToChars_isDigit hc
    unfold parseNat
    rw [if_neg hne, if_pos hall]
    congr 1
    rw [natToChars_eq_digits, if_neg hn, List.foldl_reverse]
    have hmap :
        List.foldr (fun x y => 10 * y + (x.toNat - 48)) 0
          ((Nat.digits 10 n).map Nat.digitChar)
        = List.foldr (fun d a => 10 * a + d) 0 (Nat.digits 10 n) := by
      rw [List.foldr_map]
      apply List.foldr_ext
      intro d hd a
      rw [digitVal_digitChar (Nat.digits_lt_base (by norm_num) hd)]
    rw [hmap, foldr_eq_ofDigits, Nat.ofDigits_digits]

theorem natToChars_injective : Function.Injective natToChars := by
  intro a b h
  have := parseNat_natToChars a
  rw [h, parseNat_natToChars b] at this
  exact (Option.some_injective _ this).symm

/-- Lexicographic string order used to model the default comparator of
JavaScript `Array.prototype.sort()` applied to the parameter names in
`getFilenameForImage` (all ASCII, so code-unit order is character order). -/
def strLeb : JStr → JStr → Bool
  | [], _ => true
  | _ :: _, [] => false
  | a :: as, b :: bs =>
    if a < b then true else if a = b then strLeb as bs else false

theorem strLeb_total (x y : JStr) : strLeb x y = true ∨ strLeb y x = true := by
  induction x generalizing y with
  | nil => left; rfl
  | cons a as ih =>
    cases y with
    | nil => right; rfl
    | cons b bs =>
      rcases lt_trichotomy a b with hab | hab | hab
      · left; simp [strLeb, hab]
      · subst hab
        rcases ih bs with h | h
        · left; simp [strLeb, h]
        · right; simp [strLeb, h]
      · right; simp [strLeb, hab]

theorem strLeb_trans {x y z : JStr} (hxy : strLeb x y = true)
    (hyz : strLeb y z = true) : strLeb x z = true := by
  induction x generalizing y z with
  | nil => rfl
  | cons a as ih =>
    cases y with
    | nil => simp [strLeb] at hxy
    | cons b bs =>
      cases z with
      | nil => simp [strLeb] at hyz
      | cons c cs =>
        rcases lt_trichotomy a b with hab | hab | hab
        · rcases lt_trichotomy b c with hbc | hbc | hbc
          · simp [strLeb, lt_trans hab hbc]
          · subst hbc; simp [strLeb, hab]
          · simp [strLeb, asymm hbc, Ne.symm (ne_of_lt hbc)] at hyz
        · subst hab
          simp only [strLeb, lt_irrefl, if_neg, if_pos rfl, ite_self,
            if_false, reduceIte] at hxy
          rcases lt_trichotomy a c with hac | hac | hac
          · simp [strLeb, hac]
          · subst hac
            simp only [strLeb, lt_irrefl, reduceIte, if_pos rfl] at hyz ⊢
            exact ih hxy hyz
          · simp [strLeb, asymm hac, Ne.symm (ne_of_lt hac)] at hyz
        · simp [strLeb, asymm hab, Ne.symm (ne_of_lt hab)] at hxy

theorem strLeb_antisymm {x y : JStr} (hxy : strLeb x y = true)
    (hyx : strLeb y x = true) : x = y := by
  induction x generalizing y with
  | nil =>
    cases y with
    | nil => rfl
    | cons b bs => simp [strLeb] at hyx
  | cons a as ih =>
    cases y with
    | nil => simp [strLeb] at hxy
    | cons b bs =>
      simp only [strLeb] at hxy hyx
      by_cases hab : a < b
      · simp [asymm hab, (ne_of_lt hab).symm] at hyx
      · by_cases habe : a = b
        · subst habe
          simp only [if_neg hab, if_pos rfl] at hxy hyx
          rw [ih hxy hyx]
        · simp [hab, habe] at hxy

/-- Propositional form of `strLeb`, for use with Mathlib's sorting lemmas. -/
def strLe (x y : JStr) : Prop := strLeb x y = true

instance : DecidableRel strLe := fun x y =>
  inferInstanceAs (Decidable (strLeb x y = true))

instance : IsTotal JStr strLe := ⟨strLeb_total⟩

instance : IsTrans JStr strLe := ⟨fun _ _ _ => strLeb_trans⟩

instance : IsAntisymm JStr strLe := ⟨fun _ _ => strLeb_antisymm⟩

/-- Model of `Object.keys(params).sort()`. -/
def sortStrs (l : List JStr) : List JStr := List.insertionSort strLe l

/-- Sorting is invariant under permutation of the input, which is what makes
the encoded key independent of the field order of the parameter object. -/
theorem sortStrs_perm_eq {l₁ l₂ : List JStr} (h : l₁.Perm l₂) :
    sortStrs l₁ = sortStrs l₂ :=
  List.eq_of_perm_of_sorted
    ((List.perm_insertionSort strLe l₁).trans
      (h.trans (List.perm_insertionSort strLe l₂).symm))
    (List.sorted_insertionSort strLe l₁)
    (List.sorted_insertionSort strLe l₂)

/-- JavaScript values occurring in the parameter objects handled by the
code: strings, numbers (only naturals occur in keys), booleans and
`undefined` (object literals in the handlers carry `undefined` fields). -/
inductive JsVal
  | str (s : JStr)
  | num (n : Nat)
  | boolean (b : Bool)
  | undef
deriving DecidableEq

/-- Template-literal stringification of a JavaScript value, used by
`getFilenameForImage` via `` `${k}:${params[k]}` ``. -/
def valToStr : JsVal → JStr
  | JsVal.str s => s
  | JsVal.num n => natToChars n
  | JsVal.boolean true => strOf "true"
  | JsVal.boolean false => strOf "false"
  | JsVal.undef => strOf "undefined"

/-- JavaScript objects are modelled as insertion-ordered association lists. -/
abbrev Obj := List (JStr × JsVal)

/-- Property lookup `o[k]`, returning `none` for a missing property. -/
def lookupJs (k : JStr) : Obj → Option JsVal
  | [] => none
  | (k', v) :: rest => if k' = k then some v else lookupJs k rest

/-- Model of the object spread update `({ ...acc, [k]: v })`: an existing
property keeps its position and is overwritten, a new one is appended. -/
def setKey : Obj → JStr → JsVal → Obj
  | [], k, v => [(k, v)]
  | (k', v') :: rest, k, v =>
    if k' = k then (k', v) :: rest else (k', v') :: setKey rest k v

/-- The five output image formats of `outputImageFormats` in src/types.ts. -/
inductive OutputFormat
  | jpeg | png | webp | tiff | avif
deriving DecidableEq, Fintype

def formatStr : OutputFormat → JStr
  | OutputFormat.jpeg => strOf "jpeg"
  | OutputFormat.png => strOf "png"
  | OutputFormat.webp => strOf "webp"
  | OutputFormat.tiff => strOf "tiff"
  | OutputFormat.avif => strOf "avif"

/-- The supported output extensions (`supportedOutputImageExtensions`): the
five formats plus the `jpg` spelling. -/
inductive OutExt
  | jpeg | png | webp | tiff | avif | jpg
deriving DecidableEq, Fintype

def extToStr : OutExt → JStr
  | OutExt.jpeg => strOf "jpeg"
  | OutExt.png => strOf "png"
  | OutExt.webp => strOf "webp"
  | OutExt.tiff => strOf "tiff"
  | OutExt.avif => strOf "avif"
  | OutExt.jpg => strOf "jpg"

/-- Model of `getFormatFromExtension` in src/types.ts: `jpg` maps to
`jpeg`, every other supported extension names its format directly. -/
def getFormatFromExtension : OutExt → OutputFormat
  | OutExt.jpeg => OutputFormat.jpeg
  | OutExt.png => OutputFormat.png
  | OutExt.webp => OutputFormat.webp
  | OutExt.tiff => OutputFormat.tiff
  | OutExt.avif => OutputFormat.avif
  | OutExt.jpg => OutputFormat.jpeg

/-- Fit modes of `imageResizeOptionsSchema`. -/
inductive Fit
  | cover | contain | fill | inside | outside
deriving DecidableEq, Fintype

def fitStr : Fit → JStr
  | Fit.cover => strOf "cover"
  | Fit.contain => strOf "contain"
  | Fit.fill => strOf "fill"
  | Fit.inside => strOf "inside"
  | Fit.outside => strOf "outside"

/-- Resampling kernels of `imageResizeOptionsSchema`. -/
inductive Kernel
  | nearest | cubic | mitchell | lanczos2 | lanczos3
deriving DecidableEq, Fintype

def kernelStr : Kernel → JStr
  | Kernel.nearest => strOf "nearest"
  | Kernel.cubic => strOf "cubic"
  | Kernel.mitchell => strOf "mitchell"
  | Kernel.lanczos2 => strOf "lanczos2"
  | Kernel.lanczos3 => strOf "lanczos3"

/-- Position values in the range of `getFullPositionName` (src/types.ts):
the single-token members of the `pos` schema enum that are not themselves
aliases, plus the four space-containing sharp names that the alias map
produces for the corner positions. -/
inductive Pos
  | top | right | bottom | left
  | north | northeast | east | southeast
  | south | southwest | west | northwest
  | center | centre | entropy | attention
  | rightTop | rightBottom | leftBottom | leftTop
deriving DecidableEq, Fintype

def posStr : Pos → JStr
  | Pos.top => strOf "top"
  | Pos.right => strOf "right"
  | Pos.bottom => strOf "bottom"
  | Pos.left => strOf "left"
  | Pos.north => strOf "north"
  | Pos.northeast => strOf "northeast"
  | Pos.east => strOf "east"
  | Pos.southeast => strOf "southeast"
  | Pos.south => strOf "south"
  | Pos.southwest => strOf "southwest"
  | Pos.west => strOf "west"
  | Pos.northwest => strOf "northwest"
  | Pos.center => strOf "center"
  | Pos.centre => strOf "centre"
  | Pos.entropy => strOf "entropy"
  | Pos.attention => strOf "attention"
  | Pos.rightTop => strOf "right top"
  | Pos.rightBottom => strOf "right bottom"
  | Pos.leftBottom => strOf "left bottom"
  | Pos.leftTop => strOf "left top"

/-- The `pos` enum of `imageResizeOptionsSchema` (src/types.ts), against
which `coerceImageParams` re-validates decoded keys. -/
def posEnumStrs : List JStr :=
  [strOf "top", strOf "righttop", strOf "right", strOf "rightbottom",
   strOf "bottom", strOf "leftbottom", strOf "left", strOf "lefttop",
   strOf "north", strOf "northeast", strOf "east", strOf "southeast",
   strOf "south", strOf "southwest", strOf "west", strOf "northwest",
   strOf "center", strOf "centre", strOf "entropy", strOf "attention"]

/-- The `fit` enum of `imageResizeOptionsSchema`. -/
def fitEnumStrs : List JStr :=
  [strOf "cover", strOf "contain", strOf "fill", strOf "inside",
   strOf "outside"]

/-- The `kernel` enum of `imageResizeOptionsSchema`. -/
def kernelEnumStrs : List JStr :=
  [strOf "nearest", strOf "cubic", strOf "mitchell", strOf "lanczos2",
   strOf "lanczos3"]

/-- The alias expansion table `positionMap` of src/types.ts. -/
def positionMap : List (JStr × JStr) :=
  [(strOf "righttop", strOf "right top"),
   (strOf "rightbottom", strOf "right bottom"),
   (strOf "leftbottom", strOf "left bottom"),
   (strOf "lefttop", strOf "left top"),
   (strOf "rt", strOf "right top"),
   (strOf "r", strOf "right"),
   (strOf "rb", strOf "right bottom"),
   (strOf "b", strOf "bottom"),
   (strOf "lb", strOf "left bottom"),
   (strOf "l", strOf "left"),
   (strOf "lt", strOf "left top"),
   (strOf "n", strOf "north"),
   (strOf "ne", strOf "northeast"),
   (strOf "e", strOf "east"),
   (strOf "se", strOf "southeast"),
   (strOf "s", strOf "south"),
   (strOf "sw", strOf "southwest"),
   (strOf "w", strOf "west"),
   (strOf "nw", strOf "northwest"),
   (strOf "c", strOf "center")]

/-- Model of `getFullPositionName` (src/types.ts): expand an alias via
`positionMap`, pass anything else through unchanged. -/
def getFullPositionName (p : JStr) : JStr :=
  (positionMap.lookup p).getD p

/-- Consume a literal character, as one step of the background-color
pattern of `imageResizeOptionsSchema` (`bg` property, a JSON-schema regex
re-checked by `coerceImageParams`). -/
def chompCh (c : Char) : JStr → Option JStr
  | [] => none
  | x :: rest => if x = c then some rest else none

/-- Consume a literal string prefix. -/
def chompStr : JStr → JStr → Option JStr
  | [], l => some l
  | c :: cs, l => (chompCh c l).bind (chompStr cs)

/-- Consume one to three decimal digits (the `\d{1,3}` color components;
the follower is always a comma or parenthesis, so greedy matching agrees
with the regex). -/
def digits13 (l : JStr) : Option JStr :=
  if 1 ≤ (l.takeWhile Char.isDigit).length ∧
      (l.takeWhile Char.isDigit).length ≤ 3 then
    some (l.dropWhile Char.isDigit)
  else none

/-- Consume an optional dot (the `\.?` of the alpha component). -/
def dropOptDot : JStr → JStr
  | [] => []
  | x :: r => if x = '.' then r else x :: r

/-- Consume an optional digit (the trailing `\d?` of the alpha component). -/
def dropOptDigit : JStr → JStr
  | [] => []
  | x :: r => if x.isDigit then r else x :: r

/-- Consume the alpha component `\d\.?\d?` of the `rgba` pattern (the
follower is the closing parenthesis, so greedy matching agrees with the
regex). -/
def alphaTail : JStr → Option JStr
  | [] => none
  | x :: rest =>
    if x.isDigit then some (dropOptDigit (dropOptDot rest)) else none

/-- Matcher for the `rgb(d,d,d)` alternative of the `bg` pattern. -/
def rgbMatch (s : JStr) : Bool :=
  let r := (chompStr (strOf "rgb(") s).bind fun l1 =>
    (digits13 l1).bind fun l2 =>
    (chompCh ',' l2).bind fun l3 =>
    (digits13 l3).bind fun l4 =>
    (chompCh ',' l4).bind fun l5 =>
    (digits13 l5).bind fun l6 =>
    chompCh ')' l6
  r = some []

/-- Matcher for the `rgba(d,d,d,a)` alternative of the `bg` pattern. -/
def rgbaMatch (s : JStr) : Bool :=
  let r := (chompStr (strOf "rgba(") s).bind fun l1 =>
    (digits13 l1).bind fun l2 =>
    (chompCh ',' l2).bind fun l3 =>
    (digits13 l3).bind fun l4 =>
    (chompCh ',' l4).bind fun l5 =>
    (digits13 l5).bind fun l6 =>
    (chompCh ',' l6).bind fun l7 =>
    (alphaTail l7).bind fun l8 =>
    chompCh ')' l8
  r = some []

/-- Model of the anchored `bg` JSON-schema pattern of
`imageResizeOptionsSchema`, as enforced by Ajv (case-sensitive). -/
def bgMatches (s : JStr) : Bool := rgbMatch s || rgbaMatch s

/-- Characters that can occur in a string accepted by the `bg` pattern. -/
def bgChar (c : Char) : Bool :=
  c.isDigit || c = 'r' || c = 'g' || c = 'b' || c = 'a' ||
    c = '(' || c = ')' || c = ',' || c = '.'

theorem chompCh_eq {c : Char} {l rest : JStr}
    (h : chompCh c l = some rest) : l = c :: rest := by
  cases l with
  | nil => simp [chompCh] at h
  | cons x xs =>
    simp only [chompCh] at h
    split at h
    · rename_i hx
      subst hx
      simpa using congrArg (fun o => Option.getD o []) h
    · simp at h

theorem chompStr_eq {cs l rest : JStr}
    (h : chompStr cs l = some rest) : l = cs ++ rest := by
  induction cs generalizing l with
  | nil => simpa [chompStr] using h
  | cons c cs ih =>
    simp only [chompStr, Option.bind_eq_some] at h
    obtain ⟨l1, hl1, hl2⟩ := h
    rw [chompCh_eq hl1, ih hl2]
    rfl

theorem digits13_eq {l rest : JStr} (h : digits13 l = some rest) :
    ∃ ds, l = ds ++ rest ∧ ∀ c ∈ ds, c.isDigit = true := by
  unfold digits13 at h
  split at h
  · refine ⟨l.takeWhile Char.isDigit, ?_, ?_⟩
    · rw [← Option.some_injective _ h, List.takeWhile_append_dropWhile]
    · exact fun c hc => List.mem_takeWhile_imp hc
  · simp at h

theorem dropOptDot_eq (l : JStr) :
    ∃ mid, l = mid ++ dropOptDot l ∧ ∀ c ∈ mid, c = '.' := by
  cases l with
  | nil => exact ⟨[], rfl, by simp⟩
  | cons x r =>
    by_cases hx : x = '.'
    · subst hx
      exact ⟨['.'], by simp [dropOptDot], by simp⟩
    · exact ⟨[], by simp [dropOptDot, hx], by simp⟩

theorem dropOptDigit_eq (l : JStr) :
    ∃ mid, l = mid ++ dropOptDigit l ∧ ∀ c ∈ mid, c.isDigit = true := by
  cases l with
  | nil => exact ⟨[], rfl, by simp⟩
  | cons x r =>
    by_cases hx : x.isDigit
    · exact ⟨[x], by simp [dropOptDigit, hx], by simpa using hx⟩
    · exact ⟨[], by simp [dropOptDigit, hx], by simp⟩

theorem alphaTail_eq {l rest : JStr} (h : alphaTail l = some rest) :
    ∃ mid, l = mid ++ rest ∧ ∀ c ∈ mid, (c.isDigit = true ∨ c = '.') := by
  cases l with
  | nil => simp [alphaTail] at h
  | cons x r =>
    simp only [alphaTail] at h
    split at h
    · rename_i hx
      obtain ⟨m1, hm1, hd1⟩ := dropOptDot_eq r
      obtain ⟨m2, hm2, hd2⟩ := dropOptDigit_eq (dropOptDot r)
      have hrest : rest = dropOptDigit (dropOptDot r) :=
        (Option.some_injective _ h).symm
      refine ⟨x :: m1 ++ m2, ?_, ?_⟩
      · rw [hrest]
        simp only [List.cons_append, List.append_assoc]
        rw [← hm2, ← hm1]
      · intro c hc
        simp only [List.cons_append, List.mem_cons, List.mem_append] at hc
        rcases hc with rfl | hc | hc
        · exact Or.inl hx
        · exact Or.inr (hd1 c hc)
        · exact Or.inl (hd2 c hc)
    · simp at h

theorem digit_bgChar {c : Char} (h : c.isDigit = true) : bgChar c = true := by
  simp [bgChar, h]

/-- Every character of a string accepted by the `bg` pattern is a digit or
one of the literal pattern characters; in particular no separator of the
key encoding occurs in a valid background color. -/
theorem bgMatches_chars {s : JStr} (h : bgMatches s = true) :
    s.all bgChar = true := by
  unfold bgMatches at h
  rw [Bool.or_eq_true] at h
  rcases h with h | h
  · unfold rgbMatch at h
    simp only [decide_eq_true_eq, Option.bind_eq_some] at h
    obtain ⟨l1, h1, l2, h2, l3, h3, l4, h4, l5, h5, l6, h6, h7⟩ := h
    obtain ⟨d1, hd1, hdig1⟩ := digits13_eq h2
    obtain ⟨d2, hd2, hdig2⟩ := digits13_eq h4
    obtain ⟨d3, hd3, hdig3⟩ := digits13_eq h6
    have ha1 : d1.all bgChar = true :=
      List.all_eq_true.mpr fun c hc => digit_bgChar (hdig1 c hc)
    have ha2 : d2.all bgChar = true :=
      List.all_eq_true.mpr fun c hc => digit_bgChar (hdig2 c hc)
    have ha3 : d3.all bgChar = true :=
      List.all_eq_true.mpr fun c hc => digit_bgChar (hdig3 c hc)
    rw [chompStr_eq h1, hd1, chompCh_eq h3, hd2, chompCh_eq h5, hd3,
      chompCh_eq h7]
    simp only [List.all_append, List.all_cons, List.all_nil,
      Bool.and_eq_true, ha1, ha2, ha3]
    decide
  · unfold rgbaMatch at h
    simp only [decide_eq_true_eq, Option.bind_eq_some] at h
    obtain ⟨l1, h1, l2, h2, l3, h3, l4, h4, l5, h5, l6, h6, l7, h7, l8, h8,
      h9⟩ := h
    obtain ⟨d1, hd1, hdig1⟩ := digits13_eq h2
    obtain ⟨d2, hd2, hdig2⟩ := digits13_eq h4
    obtain ⟨d3, hd3, hdig3⟩ := digits13_eq h6
    obtain ⟨da, hda, hdiga⟩ := alphaTail_eq h8
    have ha1 : d1.all bgChar = true :=
      List.all_eq_true.mpr fun c hc => digit_bgChar (hdig1 c hc)
    have ha2 : d2.all bgChar = true :=
      List.all_eq_true.mpr fun c hc => digit_bgChar (hdig2 c hc)
    have ha3 : d3.all bgChar = true :=
      List.all_eq_true.mpr fun c hc => digit_bgChar (hdig3 c hc)
    have haa : da.all bgChar = true := by
      refine List.all_eq_true.mpr fun c hc => ?_
      rcases hdiga c hc with hd | hd
      · exact digit_bgChar hd
      · subst hd; decide
    rw [chompStr_eq h1, hd1, chompCh_eq h3, hd2, chompCh_eq h5, hd3,
      chompCh_eq h7, hda, chompCh_eq h9]
    simp only [List.all_append, List.all_cons, List.all_nil,
      Bool.and_eq_true, ha1, ha2, ha3, haa]
    decide

/-- Model of `getFilenameForImage` (src/crud.ts): the image id, an
underscore, the non-`format` parameters sorted by name and joined as
`name:value` with `-`, a dot, and the format. -/
def getFilenameForImage (id : JStr) (params : Obj) : JStr :=
  id ++ strOf "_" ++
    joinCh '-'
      ((sortStrs (((params.map Prod.fst).filter
          (fun k => k ≠ strOf "format")))).map
        (fun k => k ++ strOf ":" ++
          valToStr ((lookupJs k params).getD JsVal.undef))) ++
    strOf "." ++ valToStr ((lookupJs (strOf "format") params).getD
      JsVal.undef)

/-- Model of `getKeyForImage` (src/crud.ts): the configured bucket key
prefix (here an explicit argument `pfx`), the owner, a slash, and the
filename. -/
def getKeyForImage (pfx user id : JStr) (params : Obj) : JStr :=
  pfx ++ user ++ strOf "/" ++ getFilenameForImage id params

/-- Failure modes of `getParamsFromKey`: the `TypeError` thrown when the
key has no underscore (splitting `undefined`), and the `ImageParamsError`
thrown when `coerceImageParams` rejects the reconstructed object. -/
inductive DecodeErr
  | typeError
  | imageParamsError
deriving DecidableEq

instance {ε α : Type} [DecidableEq ε] [DecidableEq α] :
    DecidableEq (Except ε α) := fun x y =>
  match x, y with
  | Except.ok a, Except.ok b =>
    if h : a = b then isTrue (by rw [h]) else
      isFalse (by intro hc; injection hc; contradiction)
  | Except.error a, Except.error b =>
    if h : a = b then isTrue (by rw [h]) else
      isFalse (by intro hc; injection hc; contradiction)
  | Except.ok _, Except.error _ => isFalse (by intro hc; injection hc)
  | Except.error _, Except.ok _ => isFalse (by intro hc; injection hc)

/-- String-structural half of `getParamsFromKey` (src/crud.ts): pop the
extension off the last `.`, take the segment after the first `_`, split it
on `-` into `name:value` items. -/
def rawDecodeKey (key : JStr) : Option (JStr × List (JStr × Option JStr)) :=
  match (splitOnCh '.' key).getLast? with
  | none => none
  | some fmt =>
    match (splitOnCh '_' (joinCh '.' (splitOnCh '.' key).dropLast))[1]? with
    | none => none
    | some paramString =>
      some (fmt, (splitOnCh '-' paramString).map
        (fun it => ((splitOnCh ':' it).headD [], (splitOnCh ':' it)[1]?)))

/-- Reassemble the parameter object exactly as the `reduce` in
`getParamsFromKey` does: start from `{ format }` and spread each
`name:value` item in. -/
def buildParams (fmt : JStr) (pairs : List (JStr × Option JStr)) : Obj :=
  pairs.foldl
    (fun acc kv => setKey acc kv.1 (match kv.2 with
      | some v => JsVal.str v
      | none => JsVal.undef))
    [(strOf "format", JsVal.str fmt)]

/-- Number coercion performed by Ajv (`coerceTypes: true`) for schema
fields of type `number`, restricted to the decimal naturals that occur in
generated keys. -/
def coerceNum : JsVal → Option Nat
  | JsVal.num n => some n
  | JsVal.str s => parseNat s
  | _ => none

/-- Validation and coercion of one property of the reconstructed object
against `imageParamsSchema` (src/types.ts): `width`/`height` must be
numbers at least 1, `quality` a number in 1..100, `fit`/`pos`/`kernel`
members of their enums, `bg` must match the background-color pattern.
Properties valued `undefined` are treated as absent (as Ajv does), and
property names outside these (including `format`, which the schema does
not constrain) pass through unchecked. -/
def coerceEntry (kv : JStr × JsVal) : Option (JStr × JsVal) :=
  if kv.2 = JsVal.undef then some kv
  else if kv.1 = strOf "width" ∨ kv.1 = strOf "height" then
    (coerceNum kv.2).bind fun n =>
      if 1 ≤ n then some (kv.1, JsVal.num n) else none
  else if kv.1 = strOf "quality" then
    (coerceNum kv.2).bind fun n =>
      if 1 ≤ n ∧ n ≤ 100 then some (kv.1, JsVal.num n) else none
  else if kv.1 = strOf "fit" then
    match kv.2 with
    | JsVal.str s => if s ∈ fitEnumStrs then some kv else none
    | _ => none
  else if kv.1 = strOf "pos" then
    match kv.2 with
    | JsVal.str s => if s ∈ posEnumStrs then some kv else none
    | _ => none
  else if kv.1 = strOf "kernel" then
    match kv.2 with
    | JsVal.str s => if s ∈ kernelEnumStrs then some kv else none
    | _ => none
  else if kv.1 = strOf "bg" then
    match kv.2 with
    | JsVal.str s => if bgMatches s then some kv else none
    | _ => none
  else some kv

/-- Model of `coerceImageParams` (src/types.ts): validate and coerce every
property of the object in place. -/
def coerceImageParams : Obj → Option Obj
  | [] => some []
  | kv :: rest =>
    (coerceEntry kv).bind fun kv' =>
      (coerceImageParams rest).bind fun rest' => some (kv' :: rest')

/-- Model of `getParamsFromKey` (src/crud.ts): structural key split,
object reassembly, then schema re-validation; a failed validation is the
thrown `ImageParamsError`. -/
def getParamsFromKey (key : JStr) : Except DecodeErr Obj :=
  match rawDecodeKey key with
  | none => Except.error DecodeErr.typeError
  | some (fmt, pairs) =>
    match coerceImageParams (buildParams fmt pairs) with
    | none => Except.error DecodeErr.imageParamsError
    | some o => Except.ok o

/-- A canonical parameter set in the sense of the specification: optional
width and height, and fully-populated format, quality, fit, alias-expanded
position, background color and kernel. -/
structure CParams where
  width : Option Nat
  height : Option Nat
  format : OutputFormat
  quality : Nat
  fit : Fit
  pos : Pos
  bg : JStr
  kernel : Kernel
deriving DecidableEq

/-- Domain constraints of the canonical parameter set, mirroring the
parameter schema: positive dimensions, quality 1..100, and a background
color matching the schema pattern. -/
def CParams.canonical (P : CParams) : Prop :=
  (∀ w ∈ P.width, 1 ≤ w) ∧ (∀ h ∈ P.height, 1 ≤ h) ∧
    1 ≤ P.quality ∧ P.quality ≤ 100 ∧ bgMatches P.bg = true

instance (P : CParams) : Decidable P.canonical := by
  unfold CParams.canonical
  infer_instance

/-- Positions whose canonical spelling is a member of the schema `pos`
enum (everything except the four space-containing corner expansions). -/
def CParams.posValid (P : CParams) : Prop := posStr P.pos ∈ posEnumStrs

instance (P : CParams) : Decidable P.posValid := by
  unfold CParams.posValid
  infer_instance

/-- The JavaScript object denoted by a canonical parameter set, in the
field order of the request handlers' object literals; absent width/height
fields are omitted. -/
def jsObjOf (P : CParams) : Obj :=
  (match P.width with
    | some w => [(strOf "width", JsVal.num w)]
    | none => []) ++
  (match P.height with
    | some h => [(strOf "height", JsVal.num h)]
    | none => []) ++
  [(strOf "quality", JsVal.num P.quality),
   (strOf "fit", JsVal.str (fitStr P.fit)),
   (strOf "pos", JsVal.str (posStr P.pos)),
   (strOf "bg", JsVal.str P.bg),
   (strOf "kernel", JsVal.str (kernelStr P.kernel)),
   (strOf "format", JsVal.str (formatStr P.format))]

/-- The object produced by decoding the encoded key of a canonical
parameter set: `format` first (the seed of the `reduce`), then the
parameter fields in sorted name order, with numeric fields coerced back to
numbers.  As a JavaScript object this is deep-equal to `jsObjOf P` (only
the insertion order differs). -/
def paramsObjOf (P : CParams) : Obj :=
  [(strOf "format", JsVal.str (formatStr P.format)),
   (strOf "bg", JsVal.str P.bg),
   (strOf "fit", JsVal.str (fitStr P.fit))] ++
  (match P.height with
    | some h => [(strOf "height", JsVal.num h)]
    | none => []) ++
  [(strOf "kernel", JsVal.str (kernelStr P.kernel)),
   (strOf "pos", JsVal.str (posStr P.pos)),
   (strOf "quality", JsVal.num P.quality)] ++
  (match P.width with
    | some w => [(strOf "width", JsVal.num w)]
    | none => [])

theorem mem_joinCh {c : Char} {sep : Char} {parts : List JStr}
    (h : c ∈ joinCh sep parts) : c = sep ∨ ∃ p ∈ parts, c ∈ p := by
  induction parts with
  | nil => simp [joinCh] at h
  | cons p ps ih =>
    cases ps with
    | nil =>
      simp only [joinCh] at h
      exact Or.inr ⟨p, by simp, h⟩
    | cons q qs =>
      have hj : joinCh sep (p :: q :: qs) = p ++ sep :: joinCh sep (q :: qs) :=
        rfl
      rw [hj] at h
      simp only [List.mem_append, List.mem_cons] at h
      rcases h with h | h | h
      · exact Or.inr ⟨p, by simp, h⟩
      · exact Or.inl h
      · rcases ih h with h' | ⟨r, hr, hc⟩
        · exact Or.inl h'
        · exact Or.inr ⟨r, by simp [hr], hc⟩

theorem isDigit_ne_seps {c : Char} (h : c.isDigit = true) :
    c ≠ ':' ∧ c ≠ '-' ∧ c ≠ '_' := by
  refine ⟨?_, ?_, ?_⟩ <;> intro hc <;> subst hc <;> exact absurd h (by decide)

theorem bgChar_ne_seps {c : Char} (h : bgChar c = true) :
    c ≠ ':' ∧ c ≠ '-' ∧ c ≠ '_' := by
  refine ⟨?_, ?_, ?_⟩ <;> intro hc <;> subst hc <;> exact absurd h (by decide)

theorem natToChars_ne_seps {n : Nat} {c : Char} (h : c ∈ natToChars n) :
    c ≠ ':' ∧ c ≠ '-' ∧ c ≠ '_' :=
  isDigit_ne_seps (mem_natToChars_isDigit h)

theorem fitStr_mem (ft : Fit) : fitStr ft ∈ fitEnumStrs := by
  cases ft <;> decide

theorem kernelStr_mem (kr : Kernel) : kernelStr kr ∈ kernelEnumStrs := by
  cases kr <;> decide

/-- Strings free of the three one-character separators that the key decoder
splits parameter items on. -/
def sepFree (s : JStr) : Bool :=
  s.all (fun c => c != ':' && c != '-' && c != '_')

theorem sepFree_spec {s : JStr} (hs : sepFree s = true) {c : Char}
    (h : c ∈ s) : c ≠ ':' ∧ c ≠ '-' ∧ c ≠ '_' := by
  have hc := List.all_eq_true.mp hs c h
  simp only [Bool.and_eq_true, bne_iff_ne, ne_eq] at hc
  exact ⟨hc.1.1, hc.1.2, hc.2⟩

theorem fitStr_ne_seps (ft : Fit) {c : Char} (h : c ∈ fitStr ft) :
    c ≠ ':' ∧ c ≠ '-' ∧ c ≠ '_' :=
  sepFree_spec (by cases ft <;> decide) h

theorem kernelStr_ne_seps (kr : Kernel) {c : Char} (h : c ∈ kernelStr kr) :
    c ≠ ':' ∧ c ≠ '-' ∧ c ≠ '_' :=
  sepFree_spec (by cases kr <;> decide) h

theorem posStr_ne_seps (ps : Pos) {c : Char} (h : c ∈ posStr ps) :
    c ≠ ':' ∧ c ≠ '-' ∧ c ≠ '_' :=
  sepFree_spec (by cases ps <;> decide) h

theorem formatStr_no_dot (fm : OutputFormat) : '.' ∉ formatStr fm := by
  cases fm <;> decide

theorem bg_ne_seps {s : JStr} (hs : bgMatches s = true) {c : Char}
    (h : c ∈ s) : c ≠ ':' ∧ c ≠ '-' ∧ c ≠ '_' :=
  bgChar_ne_seps (List.all_eq_true.mp (bgMatches_chars hs) c h)

/-- Decoding the structural layer of an encoded key: popping the extension
and splitting on the underscore and the item separators recovers the format
and the name/value pairs, provided the segments are free of the separators
that the split keys on. -/
theorem rawDecodeKey_encoded (pre fmt : JStr) (parts : List (JStr × JStr))
    (hpre : '_' ∉ pre) (hfmt : '.' ∉ fmt) (hne : parts ≠ [])
    (hnames : ∀ p ∈ parts, ':' ∉ p.1 ∧ '-' ∉ p.1 ∧ '_' ∉ p.1)
    (hvals : ∀ p ∈ parts, ':' ∉ p.2 ∧ '-' ∉ p.2 ∧ '_' ∉ p.2) :
    rawDecodeKey (pre ++ '_' ::
        (joinCh '-' (parts.map (fun kv => kv.1 ++ ':' :: kv.2)) ++
          '.' :: fmt)) =
      some (fmt, parts.map (fun kv => (kv.1, some kv.2))) := by
  set blob := joinCh '-' (parts.map (fun kv => kv.1 ++ ':' :: kv.2)) with hb
  have hkey : pre ++ '_' :: (blob ++ '.' :: fmt) =
      (pre ++ '_' :: blob) ++ '.' :: fmt := by
    simp
  have hsplitDot : splitOnCh '.' ((pre ++ '_' :: blob) ++ '.' :: fmt) =
      splitOnCh '.' (pre ++ '_' :: blob) ++ [fmt] := by
    rw [splitOnCh_append, splitOnCh_eq_single hfmt]
  have hblobU : '_' ∉ blob := by
    intro hc
    rcases mem_joinCh hc with h | ⟨p, hp, hcp⟩
    · exact absurd h (by decide)
    · simp only [List.mem_map] at hp
      obtain ⟨kv, hkv, rfl⟩ := hp
      simp only [List.mem_append, List.mem_cons] at hcp
      rcases hcp with hcp | hcp | hcp
      · exact (hnames kv hkv).2.2 hcp
      · exact absurd hcp (by decide)
      · exact (hvals kv hkv).2.2 hcp
  have hsplitU : splitOnCh '_' (pre ++ '_' :: blob) = [pre, blob] := by
    rw [splitOnCh_append, splitOnCh_eq_single hpre,
      splitOnCh_eq_single hblobU]
    rfl
  have hitems : splitOnCh '-' blob =
      parts.map (fun kv => kv.1 ++ ':' :: kv.2) := by
    rw [hb]
    apply splitOnCh_joinCh
    · simpa using hne
    · intro p hp
      simp only [List.mem_map] at hp
      obtain ⟨kv, hkv, rfl⟩ := hp
      intro hc
      simp only [List.mem_append, List.mem_cons] at hc
      rcases hc with hc | hc | hc
      · exact (hnames kv hkv).2.1 hc
      · exact absurd hc (by decide)
      · exact (hvals kv hkv).2.1 hc
  unfold rawDecodeKey
  rw [hkey, hsplitDot, List.getLast?_concat, List.dropLast_concat,
    joinCh_splitOnCh, hsplitU]
  simp only [List.getElem?_cons_succ, List.getElem?_cons_zero]
  rw [hitems, List.map_map]
  congr 1
  congr 1
  apply List.map_congr_left
  intro kv hkv
  have hsplitC : splitOnCh ':' (kv.1 ++ ':' :: kv.2) = [kv.1, kv.2] := by
    rw [splitOnCh_append, splitOnCh_eq_single (hnames kv hkv).1,
      splitOnCh_eq_single (hvals kv hkv).1]
    rfl
  simp [Function.comp, hsplitC]

/-- The sorted `name:value` string pairs of a canonical parameter set, in
the lexicographic name order produced by the key encoder. -/
def sortedPartsOf (P : CParams) : List (JStr × JStr) :=
  [(strOf "bg", P.bg), (strOf "fit", fitStr P.fit)] ++
  (match P.height with
    | some h => [(strOf "height", natToChars h)]
    | none => []) ++
  [(strOf "kernel", kernelStr P.kernel), (strOf "pos", posStr P.pos),
   (strOf "quality", natToChars P.quality)] ++
  (match P.width with
    | some w => [(strOf "width", natToChars w)]
    | none => [])

theorem keyAssoc (a u s i J F : JStr) :
    a ++ u ++ s ++ (i ++ strOf "_" ++ J ++ strOf "." ++ F) =
      (a ++ u ++ s ++ i) ++ '_' :: (J ++ '.' :: F) := by
  have h1 : strOf "_" = ['_'] := rfl
  have h2 : strOf "." = ['.'] := rfl
  rw [h1, h2]
  simp [List.append_assoc]

/-- Normal form of the encoded key of a canonical parameter set: the owner
segment, one underscore, the joined sorted parameter items, and the
extension after the final dot. -/
theorem getKeyForImage_jsObjOf (pfx user id : JStr) (P : CParams) :
    getKeyForImage pfx user id (jsObjOf P) =
      (pfx ++ user ++ strOf "/" ++ id) ++ '_' ::
        (joinCh '-' ((sortedPartsOf P).map (fun kv => kv.1 ++ ':' :: kv.2))
          ++ '.' :: formatStr P.format) := by
  obtain ⟨pw, ph, fm, q, ft, ps, bgv, kr⟩ := P
  cases pw with
  | none =>
    cases ph with
    | none =>
      have hnf : getKeyForImage pfx user id
          (jsObjOf ⟨none, none, fm, q, ft, ps, bgv, kr⟩) =
          pfx ++ user ++ strOf "/" ++
            (id ++ strOf "_" ++
              joinCh '-' [strOf "bg:" ++ bgv, strOf "fit:" ++ fitStr ft,
                strOf "kernel:" ++ kernelStr kr, strOf "pos:" ++ posStr ps,
                strOf "quality:" ++ natToChars q] ++
              strOf "." ++ formatStr fm) := rfl
    -- the remaining association is handled uniformly below
      rw [hnf]
      exact keyAssoc pfx user (strOf "/") id _ _
    | some h =>
      have hnf : getKeyForImage pfx user id
          (jsObjOf ⟨none, some h, fm, q, ft, ps, bgv, kr⟩) =
          pfx ++ user ++ strOf "/" ++
            (id ++ strOf "_" ++
              joinCh '-' [strOf "bg:" ++ bgv, strOf "fit:" ++ fitStr ft,
                strOf "height:" ++ natToChars h,
                strOf "kernel:" ++ kernelStr kr, strOf "pos:" ++ posStr ps,
                strOf "quality:" ++ natToChars q] ++
              strOf "." ++ formatStr fm) := rfl
      rw [hnf]
      exact keyAssoc pfx user (strOf "/") id _ _
  | some w =>
    cases ph with
    | none =>
      have hnf : getKeyForImage pfx user id
          (jsObjOf ⟨some w, none, fm, q, ft, ps, bgv, kr⟩) =
          pfx ++ user ++ strOf "/" ++
            (id ++ strOf "_" ++
              joinCh '-' [strOf "bg:" ++ bgv, strOf "fit:" ++ fitStr ft,
                strOf "kernel:" ++ kernelStr kr, strOf "pos:" ++ posStr ps,
                strOf "quality:" ++ natToChars q,
                strOf "width:" ++ natToChars w] ++
              strOf "." ++ formatStr fm) := rfl
      rw [hnf]
      exact keyAssoc pfx user (strOf "/") id _ _
    | some h =>
      have hnf : getKeyForImage pfx user id
          (jsObjOf ⟨some w, some h, fm, q, ft, ps, bgv, kr⟩) =
          pfx ++ user ++ strOf "/" ++
            (id ++ strOf "_" ++
              joinCh '-' [strOf "bg:" ++ bgv, strOf "fit:" ++ fitStr ft,
                strOf "height:" ++ natToChars h,
                strOf "kernel:" ++ kernelStr kr, strOf "pos:" ++ posStr ps,
                strOf "quality:" ++ natToChars q,
                strOf "width:" ++ natToChars w] ++
              strOf "." ++ formatStr fm) := rfl
      rw [hnf]
      exact keyAssoc pfx user (strOf "/") id _ _

theorem coerceEntry_format (s : JStr) :
    coerceEntry (strOf "format", JsVal.str s) =
      some (strOf "format", JsVal.str s) := rfl

theorem coerceEntry_bg (s : JStr) :
    coerceEntry (strOf "bg", JsVal.str s) =
      if bgMatches s then some (strOf "bg", JsVal.str s) else none := rfl

theorem coerceEntry_fit (s : JStr) :
    coerceEntry (strOf "fit", JsVal.str s) =
      if s ∈ fitEnumStrs then some (strOf "fit", JsVal.str s)
      else none := rfl

theorem coerceEntry_pos (s : JStr) :
    coerceEntry (strOf "pos", JsVal.str s) =
      if s ∈ posEnumStrs then some (strOf "pos", JsVal.str s)
      else none := rfl

theorem coerceEntry_kernel (s : JStr) :
    coerceEntry (strOf "kernel", JsVal.str s) =
      if s ∈ kernelEnumStrs then some (strOf "kernel", JsVal.str s)
      else none := rfl

theorem coerceEntry_width (s : JStr) :
    coerceEntry (strOf "width", JsVal.str s) =
      (parseNat s).bind fun n =>
        if 1 ≤ n then some (strOf "width", JsVal.num n) else none := rfl

theorem coerceEntry_height (s : JStr) :
    coerceEntry (strOf "height", JsVal.str s) =
      (parseNat s).bind fun n =>
        if 1 ≤ n then some (strOf "height", JsVal.num n) else none := rfl

theorem coerceEntry_quality (s : JStr) :
    coerceEntry (strOf "quality", JsVal.str s) =
      (parseNat s).bind fun n =>
        if 1 ≤ n ∧ n ≤ 100 then some (strOf "quality", JsVal.num n)
        else none := rfl

theorem posValid_mem {P : CParams} (h : P.posValid) :
    posStr P.pos ∈ posEnumStrs := h

theorem notMem_seps_of {v : JStr}
    (hv : ∀ c ∈ v, c ≠ ':' ∧ c ≠ '-' ∧ c ≠ '_') :
    ':' ∉ v ∧ '-' ∉ v ∧ '_' ∉ v :=
  ⟨fun hc => (hv _ hc).1 rfl, fun hc => (hv _ hc).2.1 rfl,
    fun hc => (hv _ hc).2.2 rfl⟩

/-- Round-trip of the key codec on canonical parameter sets whose position
value is in the schema enum: decoding the encoded key reconstructs and
re-validates the parameter object. -/
theorem getParamsFromKey_getKeyForImage (pfx user id : JStr) (P : CParams)
    (hpfx : '_' ∉ pfx) (huser : '_' ∉ user) (hid : '_' ∉ id)
    (hcan : P.canonical) (hpos : P.posValid) :
    getParamsFromKey (getKeyForImage pfx user id (jsObjOf P)) =
      Except.ok (paramsObjOf P) := by
  obtain ⟨hw, hh, hq1, hq2, hbg⟩ := hcan
  rw [getKeyForImage_jsObjOf]
  have hpre : '_' ∉ pfx ++ user ++ strOf "/" ++ id := by
    simp only [List.mem_append, not_or]
    exact ⟨⟨⟨hpfx, huser⟩, by decide⟩, hid⟩
  have hfmt : '.' ∉ formatStr P.format := formatStr_no_dot P.format
  have hnames : ∀ p ∈ sortedPartsOf P, ':' ∉ p.1 ∧ '-' ∉ p.1 ∧ '_' ∉ p.1 := by
    intro p hp
    obtain ⟨pw, ph, fm, q, ft, ps, bgv, kr⟩ := P
    cases pw <;> cases ph <;>
      simp only [sortedPartsOf, List.cons_append, List.nil_append,
        List.append_nil] at hp <;>
      fin_cases hp <;> exact of_decide_eq_true rfl
  have hvals : ∀ p ∈ sortedPartsOf P, ':' ∉ p.2 ∧ '-' ∉ p.2 ∧ '_' ∉ p.2 := by
    intro p hp
    obtain ⟨pw, ph, fm, q, ft, ps, bgv, kr⟩ := P
    cases pw <;> cases ph <;>
      simp only [sortedPartsOf, List.cons_append, List.nil_append,
        List.append_nil] at hp <;>
      fin_cases hp <;>
      first
      | exact notMem_seps_of (fun c hc => bg_ne_seps hbg hc)
      | exact notMem_seps_of (fun c hc => fitStr_ne_seps _ hc)
      | exact notMem_seps_of (fun c hc => kernelStr_ne_seps _ hc)
      | exact notMem_seps_of (fun c hc => posStr_ne_seps _ hc)
      | exact notMem_seps_of (fun c hc => natToChars_ne_seps hc)
  have hne : sortedPartsOf P ≠ [] := by
    obtain ⟨pw, ph, fm, q, ft, ps, bgv, kr⟩ := P
    cases pw <;> cases ph <;> simp [sortedPartsOf]
  have hraw := rawDecodeKey_encoded (pfx ++ user ++ strOf "/" ++ id)
    (formatStr P.format) (sortedPartsOf P) hpre hfmt hne hnames hvals
  unfold getParamsFromKey
  rw [hraw]
  obtain ⟨pw, ph, fm, q, ft, ps, bgv, kr⟩ := P
  simp only [CParams.posValid] at hpos
  simp only [Option.mem_def] at hw hh
  have hqq12 : 1 ≤ q ∧ q ≤ 100 := ⟨hq1, hq2⟩
  cases pw with
  | none =>
    cases ph with
    | none =>
      show (match coerceImageParams (buildParams (formatStr fm)
        [(strOf "bg", some bgv), (strOf "fit", some (fitStr ft)),
         (strOf "kernel", some (kernelStr kr)),
         (strOf "pos", some (posStr ps)),
         (strOf "quality", some (natToChars q))]) with
        | none => Except.error DecodeErr.imageParamsError
        | some o => Except.ok o) = _
      have hbuild : buildParams (formatStr fm)
          [(strOf "bg", some bgv), (strOf "fit", some (fitStr ft)),
           (strOf "kernel", some (kernelStr kr)),
           (strOf "pos", some (posStr ps)),
           (strOf "quality", some (natToChars q))] =
          [(strOf "format", JsVal.str (formatStr fm)),
           (strOf "bg", JsVal.str bgv),
           (strOf "fit", JsVal.str (fitStr ft)),
           (strOf "kernel", JsVal.str (kernelStr kr)),
           (strOf "pos", JsVal.str (posStr ps)),
           (strOf "quality", JsVal.str (natToChars q))] := rfl
      rw [hbuild]
      simp only [coerceImageParams, coerceEntry_format, coerceEntry_bg,
        coerceEntry_fit, coerceEntry_kernel, coerceEntry_pos,
        coerceEntry_quality, hbg, if_true, fitStr_mem, kernelStr_mem, hpos,
        if_pos, parseNat_natToChars, Option.some_bind, if_pos hqq12,
        Option.bind_some]
      rfl
    | some h =>
      show (match coerceImageParams (buildParams (formatStr fm)
        [(strOf "bg", some bgv), (strOf "fit", some (fitStr ft)),
         (strOf "height", some (natToChars h)),
         (strOf "kernel", some (kernelStr kr)),
         (strOf "pos", some (posStr ps)),
         (strOf "quality", some (natToChars q))]) with
        | none => Except.error DecodeErr.imageParamsError
        | some o => Except.ok o) = _
      have hbuild : buildParams (formatStr fm)
          [(strOf "bg", some bgv), (strOf "fit", some (fitStr ft)),
           (strOf "height", some (natToChars h)),
           (strOf "kernel", some (kernelStr kr)),
           (strOf "pos", some (posStr ps)),
           (strOf "quality", some (natToChars q))] =
          [(strOf "format", JsVal.str (formatStr fm)),
           (strOf "bg", JsVal.str bgv),
           (strOf "fit", JsVal.str (fitStr ft)),
           (strOf "height", JsVal.str (natToChars h)),
           (strOf "kernel", JsVal.str (kernelStr kr)),
           (strOf "pos", JsVal.str (posStr ps)),
           (strOf "quality", JsVal.str (natToChars q))] := rfl
      rw [hbuild]
      simp only [coerceImageParams, coerceEntry_format, coerceEntry_bg,
        coerceEntry_fit, coerceEntry_height, coerceEntry_kernel,
        coerceEntry_pos, coerceEntry_quality, hbg, if_true, fitStr_mem,
        kernelStr_mem, hpos, if_pos, parseNat_natToChars, Option.some_bind,
        if_pos hqq12, if_pos (hh h rfl), Option.bind_some]
      rfl
  | some w =>
    cases ph with
    | none =>
      show (match coerceImageParams (buildParams (formatStr fm)
        [(strOf "bg", some bgv), (strOf "fit", some (fitStr ft)),
         (strOf "kernel", some (kernelStr kr)),
         (strOf "pos", some (posStr ps)),
         (strOf "quality", some (natToChars q)),
         (strOf "width", some (natToChars w))]) with
        | none => Except.error DecodeErr.imageParamsError
        | some o => Except.ok o) = _
      have hbuild : buildParams (formatStr fm)
          [(strOf "bg", some bgv), (strOf "fit", some (fitStr ft)),
           (strOf "kernel", some (kernelStr kr)),
           (strOf "pos", some (posStr ps)),
           (strOf "quality", some (natToChars q)),
           (strOf "width", some (natToChars w))] =
          [(strOf "format", JsVal.str (formatStr fm)),
           (strOf "bg", JsVal.str bgv),
           (strOf "fit", JsVal.str (fitStr ft)),
           (strOf "kernel", JsVal.str (kernelStr kr)),
           (strOf "pos", JsVal.str (posStr ps)),
           (strOf "quality", JsVal.str (natToChars q)),
           (strOf "width", JsVal.str (natToChars w))] := rfl
      rw [hbuild]
      simp only [coerceImageParams, coerceEntry_format, coerceEntry_bg,
        coerceEntry_fit, coerceEntry_kernel, coerceEntry_pos,
        coerceEntry_quality, coerceEntry_width, hbg, if_true, fitStr_mem,
        kernelStr_mem, hpos, if_pos, parseNat_natToChars, Option.some_bind,
        if_pos hqq12, if_pos (hw w rfl), Option.bind_some]
      rfl
    | some h =>
      show (match coerceImageParams (buildParams (formatStr fm)
        [(strOf "bg", some bgv), (strOf "fit", some (fitStr ft)),
         (strOf "height", some (natToChars h)),
         (strOf "kernel", some (kernelStr kr)),
         (strOf "pos", some (posStr ps)),
         (strOf "quality", some (natToChars q)),
         (strOf "width", some (natToChars w))]) with
        | none => Except.error DecodeErr.imageParamsError
        | some o => Except.ok o) = _
      have hbuild : buildParams (formatStr fm)
          [(strOf "bg", some bgv), (strOf "fit", some (fitStr ft)),
           (strOf "height", some (natToChars h)),
           (strOf "kernel", some (kernelStr kr)),
           (strOf "pos", some (posStr ps)),
           (strOf "quality", some (natToChars q)),
           (strOf "width", some (natToChars w))] =
          [(strOf "format", JsVal.str (formatStr fm)),
           (strOf "bg", JsVal.str bgv),
           (strOf "fit", JsVal.str (fitStr ft)),
           (strOf "height", JsVal.str (natToChars h)),
           (strOf "kernel", JsVal.str (kernelStr kr)),
           (strOf "pos", JsVal.str (posStr ps)),
           (strOf "quality", JsVal.str (natToChars q)),
           (strOf "width", JsVal.str (natToChars w))] := rfl
      rw [hbuild]
      simp only [coerceImageParams, coerceEntry_format, coerceEntry_bg,
        coerceEntry_fit, coerceEntry_height, coerceEntry_kernel,
        coerceEntry_pos, coerceEntry_quality, coerceEntry_width, hbg,
        if_true, fitStr_mem, kernelStr_mem, hpos, if_pos,
        parseNat_natToChars, Option.some_bind, if_pos hqq12,
        if_pos (hw w rfl), if_pos (hh h rfl), Option.bind_some]
      rfl

theorem lookupJs_perm {o₁ o₂ : Obj} (h : o₁.Perm o₂)
    (hnodup : (o₁.map Prod.fst).Nodup) (k : JStr) :
    lookupJs k o₁ = lookupJs k o₂ := by
  induction h with
  | nil => rfl
  | cons x h ih =>
    simp only [List.map_cons, List.nodup_cons] at hnodup
    simp only [lookupJs]
    split
    · rfl
    · exact ih hnodup.2
  | swap x y l =>
    simp only [List.map_cons, List.nodup_cons, List.mem_cons,
      not_or] at hnodup
    simp only [lookupJs]
    by_cases hy : y.1 = k
    · by_cases hx : x.1 = k
      · exact absurd (hx.trans hy.symm).symm hnodup.1.1
      · simp [hy, hx]
    · by_cases hx : x.1 = k
      · simp [hy, hx]
      · simp [hy, hx]
  | trans h₁ h₂ ih₁ ih₂ =>
    refine (ih₁ hnodup).trans (ih₂ ?_)
    exact ((h₁.map Prod.fst).nodup_iff).mp hnodup

/-- Key encoding is invariant under the field order of the parameter
object: permuting the properties (with distinct names) yields the same
storage key, because the encoder sorts the property names. -/
theorem getKeyForImage_perm (pfx user id : JStr) {o₁ o₂ : Obj}
    (hperm : o₁.Perm o₂) (hnodup : (o₁.map Prod.fst).Nodup) :
    getKeyForImage pfx user id o₁ = getKeyForImage pfx user id o₂ := by
  unfold getKeyForImage getFilenameForImage
  have hsort : sortStrs ((o₁.map Prod.fst).filter
        (fun k => k ≠ strOf "format")) =
      sortStrs ((o₂.map Prod.fst).filter (fun k => k ≠ strOf "format")) :=
    sortStrs_perm_eq ((hperm.map Prod.fst).filter _)
  have hlook : ∀ k, lookupJs k o₁ = lookupJs k o₂ :=
    lookupJs_perm hperm hnodup
  rw [hsort, hlook]
  have hmap : ∀ ks : List JStr,
      ks.map (fun k => k ++ strOf ":" ++
          valToStr ((lookupJs k o₁).getD JsVal.undef)) =
      ks.map (fun k => k ++ strOf ":" ++
          valToStr ((lookupJs k o₂).getD JsVal.undef)) := by
    intro ks
    apply List.map_congr_left
    intro k _
    rw [hlook]
  rw [hmap]

theorem fitStr_inj : ∀ a b : Fit, fitStr a = fitStr b → a = b := by decide

theorem kernelStr_inj : ∀ a b : Kernel, kernelStr a = kernelStr b → a = b :=
  by decide

theorem posStr_inj : ∀ a b : Pos, posStr a = posStr b → a = b := by decide

theorem formatStr_inj :
    ∀ a b : OutputFormat, formatStr a = formatStr b → a = b := by decide

theorem fitStr_inj_iff {a b : Fit} : fitStr a = fitStr b ↔ a = b :=
  ⟨fitStr_inj a b, fun h => by rw [h]⟩

theorem kernelStr_inj_iff {a b : Kernel} :
    kernelStr a = kernelStr b ↔ a = b :=
  ⟨kernelStr_inj a b, fun h => by rw [h]⟩

theorem posStr_inj_iff {a b : Pos} : posStr a = posStr b ↔ a = b :=
  ⟨posStr_inj a b, fun h => by rw [h]⟩

theorem natToChars_inj_iff {a b : Nat} : natToChars a = natToChars b ↔ a = b :=
  ⟨fun h => natToChars_injective h, fun h => by rw [h]⟩

/-- Injectivity of the key encoding over canonical parameter sets: two
distinct canonical parameter sets never produce the same storage key. -/
theorem getKeyForImage_injective (pfx user id : JStr) (P₁ P₂ : CParams)
    (hpfx : '_' ∉ pfx) (huser : '_' ∉ user) (hid : '_' ∉ id)
    (hcan₁ : P₁.canonical) (hcan₂ : P₂.canonical)
    (h : getKeyForImage pfx user id (jsObjOf P₁) =
      getKeyForImage pfx user id (jsObjOf P₂)) : P₁ = P₂ := by
  have hpre : '_' ∉ pfx ++ user ++ strOf "/" ++ id := by
    simp only [List.mem_append, not_or]
    exact ⟨⟨⟨hpfx, huser⟩, by decide⟩, hid⟩
  have hnvOf : ∀ (P : CParams), P.canonical →
      (∀ p ∈ sortedPartsOf P, ':' ∉ p.1 ∧ '-' ∉ p.1 ∧ '_' ∉ p.1) ∧
      (∀ p ∈ sortedPartsOf P, ':' ∉ p.2 ∧ '-' ∉ p.2 ∧ '_' ∉ p.2) ∧
      sortedPartsOf P ≠ [] := by
    intro P hcan
    obtain ⟨hw, hh, hq1, hq2, hbg⟩ := hcan
    refine ⟨?_, ?_, ?_⟩
    · intro p hp
      obtain ⟨pw, ph, fm, q, ft, ps, bgv, kr⟩ := P
      cases pw <;> cases ph <;>
        simp only [sortedPartsOf, List.cons_append, List.nil_append,
          List.append_nil] at hp <;>
        fin_cases hp <;> exact of_decide_eq_true rfl
    · intro p hp
      obtain ⟨pw, ph, fm, q, ft, ps, bgv, kr⟩ := P
      cases pw <;> cases ph <;>
        simp only [sortedPartsOf, List.cons_append, List.nil_append,
          List.append_nil] at hp <;>
        fin_cases hp <;>
        first
        | exact notMem_seps_of (fun c hc => bg_ne_seps hbg hc)
        | exact notMem_seps_of (fun c hc => fitStr_ne_seps _ hc)
        | exact notMem_seps_of (fun c hc => kernelStr_ne_seps _ hc)
        | exact notMem_seps_of (fun c hc => posStr_ne_seps _ hc)
        | exact notMem_seps_of (fun c hc => natToChars_ne_seps hc)
    · obtain ⟨pw, ph, fm, q, ft, ps, bgv, kr⟩ := P
      cases pw <;> cases ph <;> simp [sortedPartsOf]
  obtain ⟨hn₁, hv₁, hne₁⟩ := hnvOf P₁ hcan₁
  obtain ⟨hn₂, hv₂, hne₂⟩ := hnvOf P₂ hcan₂
  have hraw₁ := rawDecodeKey_encoded (pfx ++ user ++ strOf "/" ++ id)
    (formatStr P₁.format) (sortedPartsOf P₁) hpre
    (formatStr_no_dot P₁.format) hne₁ hn₁ hv₁
  have hraw₂ := rawDecodeKey_encoded (pfx ++ user ++ strOf "/" ++ id)
    (formatStr P₂.format) (sortedPartsOf P₂) hpre
    (formatStr_no_dot P₂.format) hne₂ hn₂ hv₂
  rw [getKeyForImage_jsObjOf, getKeyForImage_jsObjOf] at h
  rw [h] at hraw₁
  rw [hraw₂] at hraw₁
  simp only [Option.some.injEq, Prod.mk.injEq] at hraw₁
  obtain ⟨hfmt, hparts⟩ := hraw₁
  have hfm : P₂.format = P₁.format := formatStr_inj _ _ hfmt
  have hsp : sortedPartsOf P₂ = sortedPartsOf P₁ := by
    have hinj : Function.Injective
        (fun kv : JStr × JStr => (kv.1, some kv.2)) := by
      intro a b hab
      simp only [Prod.mk.injEq, Option.some.injEq] at hab
      exact Prod.ext hab.1 hab.2
    exact List.map_injective_iff.mpr hinj hparts
  clear h hraw₂ hfmt hparts hpre hn₁ hv₁ hne₁ hn₂ hv₂ hne₂ hnvOf
  clear hcan₁ hcan₂ hpfx huser hid
  obtain ⟨pw₁, ph₁, fm₁, q₁, ft₁, ps₁, bg₁, kr₁⟩ := P₁
  obtain ⟨pw₂, ph₂, fm₂, q₂, ft₂, ps₂, bg₂, kr₂⟩ := P₂
  simp only at hfm
  subst hfm
  cases pw₁ <;> cases pw₂ <;> cases ph₁ <;> cases ph₂ <;>
    simp only [sortedPartsOf, List.cons_append, List.nil_append,
      List.append_nil] at hsp <;>
    first
    | (exact absurd (by simpa using congrArg (List.map Prod.fst) hsp)
        (by decide))
    | (simp only [List.cons.injEq, Prod.mk.injEq, Option.some.injEq,
        eq_self_iff_true, true_and, and_true, fitStr_inj_iff,
        kernelStr_inj_iff, posStr_inj_iff, natToChars_inj_iff] at hsp
       simp only [CParams.mk.injEq, Option.some.injEq]
       tauto)

/-- Pixel-level metadata of stored image bytes: dimensions and format (a
valid image always reports these; `uploadImageToBucket` throws otherwise). -/
structure ImgMeta where
  width : Nat
  height : Nat
  format : OutputFormat
deriving DecidableEq

/-- Operations recorded on a sharp pipeline.  The resize payload keeps the
options the handlers pass (`position` after alias expansion and the raw
background string; the RGBA parse `getRgba` is not itself modelled since no
claim depends on the parsed color). -/
inductive SharpOp
  | resize (width height : Option Nat) (fit : Fit) (kernel : Kernel)
      (position : Option JStr) (background : Option JStr)
  | toFormat (fm : OutputFormat)
deriving DecidableEq

/-- A sharp image object: current metadata plus the recorded pipeline. -/
structure SharpImg where
  meta : ImgMeta
  ops : List SharpOp
deriving DecidableEq

/-- Output dimensions of a sharp resize.  Modelled from sharp's documented
resize semantics: with both dimensions and fit cover/contain/fill the
output is exactly the requested box, inside/outside bound it preserving
aspect ratio, and a single dimension scales the other proportionally. -/
def resizeDims (aw ah : Nat) (w h : Option Nat) (fit : Fit) : Nat × Nat :=
  match w, h with
  | some w, some h =>
    match fit with
    | Fit.cover => (w, h)
    | Fit.contain => (w, h)
    | Fit.fill => (w, h)
    | Fit.inside =>
      if w * ah ≤ h * aw then (w, ah * w / aw) else (aw * h / ah, h)
    | Fit.outside =>
      if w * ah ≤ h * aw then (aw * h / ah, h) else (w, ah * w / aw)
  | some w, none => (w, ah * w / aw)
  | none, some h => (aw * h / ah, h)
  | none, none => (aw, ah)

/-- The requested image parameter record built by the route handlers
(`requestedImageParams`): short aliases already merged, position already
alias-expanded, format derived from the extension. -/
structure RIP where
  width : Option Nat
  height : Option Nat
  quality : Option Nat
  fit : Option Fit
  pos : Option JStr
  bg : Option JStr
  kernel : Option Kernel
  format : OutputFormat
deriving DecidableEq

/-- The JavaScript object literal denoted by `requestedImageParams`: all
eight properties are always present, absent ones valued `undefined`. -/
def ripObj (rp : RIP) : Obj :=
  [(strOf "width", (rp.width.map JsVal.num).getD JsVal.undef),
   (strOf "height", (rp.height.map JsVal.num).getD JsVal.undef),
   (strOf "quality", (rp.quality.map JsVal.num).getD JsVal.undef),
   (strOf "fit", (rp.fit.map (fun f => JsVal.str (fitStr f))).getD
     JsVal.undef),
   (strOf "pos", (rp.pos.map JsVal.str).getD JsVal.undef),
   (strOf "bg", (rp.bg.map JsVal.str).getD JsVal.undef),
   (strOf "kernel", (rp.kernel.map (fun k => JsVal.str (kernelStr k))).getD
     JsVal.undef),
   (strOf "format", JsVal.str (formatStr rp.format))]

/-- JavaScript truthiness of an optional number (schema minimums keep 0 out
of the domain, but the conditionals in the handlers use plain `&&`). -/
def truthyNum : Option Nat → Bool
  | some n => n != 0
  | none => false

/-- Model of `coerceToRequested` (src/routes/image.ts): resize only when a
requested dimension is strictly below the source's actual dimension, then
re-encode when a truthy requested quality is below 100 or the requested
format differs from the source's actual metadata format.  The returned
flag `changed` reports whether either step ran. -/
def coerceToRequested (img : SharpImg) (requestedParams : RIP)
    (ext : OutExt) : Bool × SharpImg :=
  let actualMeta := img.meta
  let format := getFormatFromExtension ext
  let doResize :=
    (truthyNum requestedParams.width &&
      decide ((requestedParams.width.getD 0) < actualMeta.width)) ||
    (truthyNum requestedParams.height &&
      decide ((requestedParams.height.getD 0) < actualMeta.height))
  let img1 :=
    if doResize then
      let dims := resizeDims actualMeta.width actualMeta.height
        requestedParams.width requestedParams.height
        (requestedParams.fit.getD Fit.cover)
      { meta := { img.meta with width := dims.1, height := dims.2 },
        ops := img.ops ++
          [SharpOp.resize requestedParams.width requestedParams.height
            (requestedParams.fit.getD Fit.cover)
            (requestedParams.kernel.getD Kernel.lanczos3)
            (if requestedParams.pos.isSome &&
                ((requestedParams.fit.getD Fit.cover) == Fit.cover) then
              requestedParams.pos
            else none)
            (if requestedParams.bg.isSome &&
                ((requestedParams.fit.getD Fit.cover) == Fit.contain) then
              requestedParams.bg
            else none)] }
    else img
  let doReencode :=
    (truthyNum requestedParams.quality &&
      decide ((requestedParams.quality.getD 0) < 100)) ||
    format != actualMeta.format
  let img2 :=
    if doReencode then
      { meta := { img1.meta with format := format },
        ops := img1.ops ++ [SharpOp.toFormat format] }
    else img1
  (doResize || doReencode, img2)

/-- A raw DynamoDB row of the image table, as written by
`createNewImageInCache` (src/crud.ts). -/
structure CacheRow where
  id : JStr
  user : JStr
  original_key : JStr
  url : Option JStr
  created : Nat
  id_public : JStr
  exp : Nat
deriving DecidableEq

/-- A cache entry after `coerceObjectToCacheEntry`. -/
structure CacheEntry where
  id : JStr
  user : JStr
  original_key : JStr
  url : Option JStr
  created : Nat
  exp : Nat
  public : Bool
deriving DecidableEq

/-- Model of `coerceObjectToCacheEntry` (src/crud.ts): the `id_public`
attribute becomes the boolean `public` by checking the `:1` suffix. -/
def coerceObjectToCacheEntry (r : CacheRow) : CacheEntry :=
  { id := r.id, user := r.user, original_key := r.original_key,
    url := r.url, created := r.created, exp := r.exp,
    public := List.isSuffixOf (strOf ":1") r.id_public }

/-- Combined state of the two external stores: the DynamoDB image table
and the S3 bucket (keys to stored image bytes). -/
structure St where
  table : List CacheRow
  bucket : List (JStr × ImgMeta)
deriving DecidableEq

/-- Error names thrown by the crud layer and route handlers. -/
inductive JsErr
  | imageDoesNotExist
  | imageAlreadyExists
  | invalidReturnType
  | imageParamsError
  | typeError
  | metadataError
  | imageFormatError
  | noSuchKey
  | storageFailure
deriving DecidableEq

/-- Rows the storage layer still serves at time `now`: DynamoDB's TTL makes
expired rows vanish (spec section 4.4's adapter contract). -/
def liveRows (now : Nat) (t : List CacheRow) : List CacheRow :=
  t.filter (fun r => decide (now < r.exp))

/-- Model of `getImageFromCacheById` (src/crud.ts): point lookup by id. -/
def getImageFromCacheById (now : Nat) (id : JStr) (st : St) :
    Option CacheEntry :=
  ((liveRows now st.table).find? (fun r => r.id == id)).map
    coerceObjectToCacheEntry

/-- Model of `checkCacheForUrl` (src/crud.ts): query the url index and
take the first match. -/
def checkCacheForUrl (now : Nat) (url : JStr) (st : St) :
    Option CacheEntry :=
  ((liveRows now st.table).find? (fun r => r.url == some url)).map
    coerceObjectToCacheEntry

/-- Model of `removeImageFromCacheById` (src/crud.ts). -/
def removeImageFromCacheById (id : JStr) (st : St) : St :=
  { st with table := st.table.filter (fun r => r.id != id) }

/-- Model of `createNewImageInCache` (src/crud.ts): conditional put that
fails with `ImageAlreadyExists` when a row with the id exists; url-cache
entries get `exp = now + TTL`, uploads never expire. -/
def createNewImageInCache (ttl now : Nat) (user id originalKey : JStr)
    (isPublic : Bool) (url : Option JStr) (st : St) :
    Except JsErr (CacheRow × St) :=
  if (liveRows now st.table).any (fun r => r.id == id) then
    Except.error JsErr.imageAlreadyExists
  else
    let row : CacheRow :=
      { id := id, user := user, original_key := originalKey, url := url,
        created := now,
        id_public := id ++ strOf ":" ++ (if isPublic then strOf "1"
          else strOf "0"),
        exp := match url with
          | some _ => now + ttl
          | none => 9007199254740991 }
    Except.ok (row, { st with table := st.table ++ [row] })

/-- Read stored bytes by key; a fresh sharp object has an empty pipeline. -/
def bucketFind (key : JStr) (st : St) : Option ImgMeta :=
  (st.bucket.find? (fun kv => kv.1 == key)).map Prod.snd

/-- Write bytes at a key (idempotent overwrite). -/
def bucketPut (key : JStr) (m : ImgMeta) (st : St) : St :=
  { st with bucket := (st.bucket.filter (fun kv => kv.1 != key)) ++
      [(key, m)] }

/-- Model of `listImageKeysById` (src/crud.ts): all bucket keys under the
`{prefix}{user}/{id}` prefix. -/
def listImageKeysById (pfx user id : JStr) (st : St) : List JStr :=
  (st.bucket.map Prod.fst).filter
    (fun k => List.isPrefixOf (pfx ++ user ++ strOf "/" ++ id) k)

/-- The default application of a missing or `undefined` property in a
JavaScript destructuring with defaults. -/
def getParamOr (params : Obj) (k : JStr) (d : JsVal) : JsVal :=
  match lookupJs k params with
  | some v => if v = JsVal.undef then d else v
  | none => d

/-- Remove the first space, modelling `pos.replace(" ", "")`. -/
def replaceFirstSpace : JStr → JStr
  | [] => []
  | c :: rest => if c = ' ' then rest else c :: replaceFirstSpace rest

/-- Model of `uploadImageToBucket` (src/crud.ts): render the pipeline,
take the actual metadata, fill parameter defaults, squeeze the space out
of the position, recompute the canonical storage key from the actual
dimensions and store the bytes there.  (Both metadata extraction and the
output-format membership check always succeed in the model because stored
images always carry one of the supported output formats.) -/
def uploadImageToBucket (pfx : JStr) (user id : JStr) (image : SharpImg)
    (params : Obj) (st : St) : Obj × JStr × St :=
  let meta := image.meta
  let quality := getParamOr params (strOf "quality") (JsVal.num 100)
  let fit := getParamOr params (strOf "fit") (JsVal.str (strOf "cover"))
  let pos := getParamOr params (strOf "pos") (JsVal.str (strOf "center"))
  let kernel := getParamOr params (strOf "kernel")
    (JsVal.str (strOf "lanczos3"))
  let bg := getParamOr params (strOf "bg")
    (JsVal.str (strOf "rgba(0,0,0,0)"))
  let posSquozen := JsVal.str (replaceFirstSpace (valToStr pos))
  let finalParams : Obj :=
    [(strOf "width", JsVal.num meta.width),
     (strOf "height", JsVal.num meta.height),
     (strOf "format", JsVal.str (formatStr meta.format)),
     (strOf "quality", quality),
     (strOf "fit", fit),
     (strOf "pos", posSquozen),
     (strOf "kernel", kernel),
     (strOf "bg", bg)]
  let key := getKeyForImage pfx user id finalParams
  (finalParams, key, bucketPut key meta st)

/-- Model of `getBestImageByID` (src/crud.ts): fetch the cache record,
read the blob at its `original_key` and decode that key's parameters.  No
ranking over existing renditions takes place. -/
def getBestImageByID (now : Nat) (user id : JStr) (st : St) :
    Except JsErr (SharpImg × Obj) :=
  match getImageFromCacheById now id st with
  | none => Except.error JsErr.imageDoesNotExist
  | some cacheRecord =>
    match bucketFind cacheRecord.original_key st with
    | none => Except.error JsErr.imageDoesNotExist
    | some meta =>
      match getParamsFromKey cacheRecord.original_key with
      | Except.error DecodeErr.typeError => Except.error JsErr.typeError
      | Except.error DecodeErr.imageParamsError =>
        Except.error JsErr.imageParamsError
      | Except.ok params => Except.ok ({ meta := meta, ops := [] }, params)

/-- Observable calls a request makes against the external collaborators. -/
inductive Eff
  | dbGetItem (id : JStr)
  | dbQueryUrl (url : JStr)
  | dbPutItem (id : JStr)
  | dbDeleteItem (id : JStr)
  | bGet (key : JStr)
  | bPut (key : JStr)
  | bDelete (key : JStr)
  | bList (pfx : JStr)
  | netFetch (url : JStr)
deriving DecidableEq

/-- Response bodies the image routes produce. -/
inductive RespBody
  | imgSend (m : ImgMeta)
  | errNotFoundFull
  | errNotFoundShort
  | errInvalid (msg : JStr)
  | jsonId (id : JStr)
  | emptyBody
  | thrown (e : JsErr)
deriving DecidableEq

/-- An HTTP response: status code and body. -/
structure Resp where
  status : Nat
  body : RespBody
deriving DecidableEq

/-- Summary of which control path a GET /image/:id.:ext request took. -/
inductive Outcome
  | denied
  | exactHit
  | derived (changed : Bool)
  | noSource
  | errored
deriving DecidableEq

/-- Result of a route handler run: the response, the final store state and
the trace of external calls, plus the control-path summary. -/
structure RouteRes where
  resp : Resp
  st : St
  effs : List Eff
  outcome : Outcome
deriving DecidableEq

/-- Query-string parameters of GET /image/:id.:ext after schema
validation (`ImageQueryParams`), short aliases included. -/
structure Query where
  w : Option Nat
  width : Option Nat
  h : Option Nat
  height : Option Nat
  q : Option Nat
  quality : Option Nat
  fit : Option Fit
  pos : Option JStr
  bg : Option JStr
  kernel : Option Kernel
deriving DecidableEq

/-- JavaScript `a || b` over optional numbers (`w || width` merging of the
short aliases; 0 is falsy but is excluded by the schema minimums). -/
def jsOrNum : Option Nat → Option Nat → Option Nat
  | some n, b => if n = 0 then b else some n
  | none, b => b

/-- The `requestedImageParams` record built by the GET handler. -/
def requestedParamsOf (qy : Query) (ext : OutExt) : RIP :=
  { width := jsOrNum qy.w qy.width,
    height := jsOrNum qy.h qy.height,
    quality := jsOrNum qy.q qy.quality,
    fit := qy.fit,
    pos := qy.pos.map getFullPositionName,
    bg := qy.bg,
    kernel := qy.kernel,
    format := getFormatFromExtension ext }

/-- Model of the GET /image/:id.:ext handler (src/routes/image.ts): deny
with the same NotFound response for a missing record and for a private
record read by a non-owner; then an exact-key bucket hit is returned
as-is; otherwise the best (original) image is derived to the requested
parameters, the response is sent, and the new rendition is uploaded only
when the derivation changed something. -/
def getImageRoute (pfx : JStr) (ttl now : Nat) (st : St)
    (caller : Option JStr) (id : JStr) (ext : OutExt) (qy : Query) :
    RouteRes :=
  let _ := ttl
  let user := caller
  let cacheRecord := getImageFromCacheById now id st
  match cacheRecord with
  | none =>
    { resp := { status := 404, body := RespBody.errNotFoundFull },
      st := st, effs := [Eff.dbGetItem id], outcome := Outcome.denied }
  | some e =>
    if (user != some e.user) && !e.public then
      { resp := { status := 404, body := RespBody.errNotFoundFull },
        st := st, effs := [Eff.dbGetItem id], outcome := Outcome.denied }
    else
      let requestedImageParams := requestedParamsOf qy ext
      let key := getKeyForImage pfx e.user id (ripObj requestedImageParams)
      match bucketFind key st with
      | some m =>
        { resp := { status := 200, body := RespBody.imgSend m },
          st := st, effs := [Eff.dbGetItem id, Eff.bGet key],
          outcome := Outcome.exactHit }
      | none =>
        match getBestImageByID now e.user id st with
        | Except.error JsErr.imageDoesNotExist =>
          { resp := { status := 404, body := RespBody.errNotFoundShort },
            st := st,
            effs := [Eff.dbGetItem id, Eff.bGet key, Eff.dbGetItem id,
              Eff.bGet e.original_key],
            outcome := Outcome.noSource }
        | Except.error err =>
          { resp := { status := 500, body := RespBody.thrown err },
            st := st,
            effs := [Eff.dbGetItem id, Eff.bGet key, Eff.dbGetItem id,
              Eff.bGet e.original_key],
            outcome := Outcome.errored }
        | Except.ok (best, _bestParams) =>
          let cr := coerceToRequested best requestedImageParams ext
          let changed := cr.1
          let img := cr.2
          if changed then
            let up := uploadImageToBucket pfx e.user id img
              (ripObj requestedImageParams) st
            { resp := { status := 200, body := RespBody.imgSend img.meta },
              st := up.2.2,
              effs := [Eff.dbGetItem id, Eff.bGet key, Eff.dbGetItem id,
                Eff.bGet e.original_key, Eff.bPut up.2.1],
              outcome := Outcome.derived true }
          else
            { resp := { status := 200, body := RespBody.imgSend img.meta },
              st := st,
              effs := [Eff.dbGetItem id, Eff.bGet key, Eff.dbGetItem id,
                Eff.bGet e.original_key],
              outcome := Outcome.derived false }

/-- Result of the external URL fetch in the ingest path. -/
inductive FetchRes
  | httpErr (status : Nat)
  | okBytes (meta : Option ImgMeta)
deriving DecidableEq

/-- Model of the url branch of the POST /image handler
(src/routes/image.ts): check the url cache and short-circuit with 304 and
the cached id unless forced; otherwise fetch, validate, upload the
original rendition and create the cache entry. -/
def postImageUrlRoute (pfx : JStr) (ttl now : Nat) (st : St) (user : JStr)
    (url : JStr) (force : Bool) (fetch : JStr → FetchRes)
    (freshId : JStr) : Resp × St × List Eff :=
  match checkCacheForUrl now url st with
  | some cacheEntry =>
    if !force then
      ({ status := 304, body := RespBody.jsonId cacheEntry.id }, st,
        [Eff.dbQueryUrl url])
    else
      postFetchUrl pfx ttl now st user url fetch (some cacheEntry.id)
        freshId
  | none => postFetchUrl pfx ttl now st user url fetch none freshId
where
  postFetchUrl (pfx : JStr) (ttl now : Nat) (st : St) (user url : JStr)
      (fetch : JStr → FetchRes) (cachedId : Option JStr)
      (freshId : JStr) : Resp × St × List Eff :=
    match fetch url with
    | FetchRes.httpErr status =>
      ({ status := status, body := RespBody.errInvalid (strOf "") }, st,
        [Eff.dbQueryUrl url, Eff.netFetch url])
    | FetchRes.okBytes none =>
      ({ status := 400, body := RespBody.errInvalid (strOf "Invalid image") },
        st, [Eff.dbQueryUrl url, Eff.netFetch url])
    | FetchRes.okBytes (some meta) =>
      let id := cachedId.getD freshId
      let up := uploadImageToBucket pfx user id { meta := meta, ops := [] }
        [] st
      let key := getKeyForImage pfx user id up.1
      match createNewImageInCache ttl now user id key true (some url)
          up.2.2 with
      | Except.error e =>
        ({ status := 500, body := RespBody.thrown e }, up.2.2,
          [Eff.dbQueryUrl url, Eff.netFetch url, Eff.bPut up.2.1,
            Eff.dbPutItem id])
      | Except.ok (_, st2) =>
        ({ status := 201, body := RespBody.jsonId id }, st2,
          [Eff.dbQueryUrl url, Eff.netFetch url, Eff.bPut up.2.1,
            Eff.dbPutItem id])

/-- Per-key outcome of an S3 DeleteObject call. -/
inductive DelRes
  | ok
  | noSuchKey
  | otherError
deriving DecidableEq

/-- Model of the DELETE image/:id handler (src/routes/image.ts): list the
rendition keys, 404 when none, remove the cache row first, then delete
every listed key; a NoSuchKey rejection is logged and swallowed, any other
rejection is rethrown, and the cache row is never restored. -/
def deleteImageRoute (pfx : JStr) (st : St) (user id : JStr)
    (del : JStr → DelRes) : Resp × St × List Eff :=
  let toDelete := listImageKeysById pfx user id st
  if toDelete = [] then
    ({ status := 404, body := RespBody.errNotFoundShort }, st,
      [Eff.bList (pfx ++ user ++ strOf "/" ++ id)])
  else
    let st1 := removeImageFromCacheById id st
    let st2 : St :=
      { st1 with bucket := (st1.bucket.filter
          (fun kv => !(decide (kv.1 ∈ toDelete) && (del kv.1 == DelRes.ok)))) }
    let firstErr := (toDelete.filter (fun k => del k != DelRes.ok)).head?
    let effs := Eff.bList (pfx ++ user ++ strOf "/" ++ id) ::
      Eff.dbDeleteItem id :: toDelete.map Eff.bDelete
    match firstErr with
    | none => ({ status := 200, body := RespBody.emptyBody }, st2, effs)
    | some k =>
      match del k with
      | DelRes.noSuchKey =>
        ({ status := 200, body := RespBody.emptyBody }, st2, effs)
      | _ =>
        ({ status := 500, body := RespBody.thrown JsErr.storageFailure },
          st2, effs)

/-- A per-property JSON-schema check: property name and the predicate its
value must satisfy when the property is present. -/
abbrev FieldCheck := JStr × (JsVal → Bool)

/-- Number-range check for a schema field of type number. -/
def isNumIn (lo hi : Nat) : JsVal → Bool
  | JsVal.num n => decide (lo ≤ n) && decide (n ≤ hi)
  | _ => false

/-- Boolean-type check. -/
def isBool : JsVal → Bool
  | JsVal.boolean _ => true
  | _ => false

/-- String-type check. -/
def isStr : JsVal → Bool
  | JsVal.str _ => true
  | _ => false

/-- The property checks of `jpegExportOptionsSchema` (src/types.ts). -/
def jpegChecks : List FieldCheck :=
  [(strOf "quality", isNumIn 1 100),
   (strOf "progressive", isBool),
   (strOf "chromaSubsampling", isStr),
   (strOf "optimiseCoding", isBool),
   (strOf "optimizeCoding", isBool),
   (strOf "mozjpeg", isBool),
   (strOf "trellisQuantisation", isBool),
   (strOf "overshootDeringing", isBool),
   (strOf "optimiseScans", isBool),
   (strOf "optimizeScans", isBool),
   (strOf "quantisationTable", isNumIn 0 8),
   (strOf "quantizationTable", isNumIn 0 8)]

/-- Model of running an Ajv-compiled validator over an object: collect the
failing properties in schema order; when `allErrors` is false — Ajv's
default — validation stops at the first error, so `validate.errors` holds
at most the first failure.  Properties not named by the schema pass, and
`undefined`-valued properties count as absent. -/
def ajvValidate (allErrors : Bool) (checks : List FieldCheck) (o : Obj) :
    Bool × List JStr :=
  let fails := checks.filterMap (fun c =>
    match lookupJs c.1 o with
    | some v =>
      if v = JsVal.undef then none
      else if c.2 v then none else some c.1
    | none => none)
  (fails.isEmpty, if allErrors then fails else fails.take 1)

/-- The `laxValidator` of src/types.ts is constructed as `new Ajv()`, whose
documented default is `allErrors: false`. -/
def laxValidatorAllErrors : Bool := false

/-- Model of `validateJpegExportOptions` (src/types.ts), the validator the
GET /image/:id.:ext preValidation hook runs for jpeg requests. -/
def validateJpegExportOptions (o : Obj) : Bool × List JStr :=
  ajvValidate laxValidatorAllErrors jpegChecks o

/-- All failing fields of an object under the jpeg schema, which is what
`allErrors: true` would have reported. -/
def failedJpegFields (o : Obj) : List JStr :=
  (ajvValidate true jpegChecks o).2

/-- The `returnType` argument of `getImageFromBucketByKey`. -/
inductive RetType
  | buffer
  | stream
  | sharp
deriving DecidableEq

/-- The possible return values of `getImageFromBucketByKey`. -/
inductive RetVal
  | bufferV (m : ImgMeta)
  | streamV (m : ImgMeta)
  | sharpV (img : SharpImg)
deriving DecidableEq

/-- JavaScript truthiness of a string (non-empty strings are truthy). -/
def jsTruthyStr (s : JStr) : Bool := !s.isEmpty

/-- Model of `getImageFromBucketByKey` (src/crud.ts).  The first branch
condition is the verbatim translation of
`returnType === "buffer" || "sharp"`: a disjunction whose right operand is
the string literal `"sharp"`, which is truthy. -/
def getImageFromBucketByKey (body : Option ImgMeta)
    (returnType : RetType) : Except JsErr RetVal :=
  match body with
  | none => Except.error JsErr.imageDoesNotExist
  | some b =>
    if (returnType == RetType.buffer) || jsTruthyStr (strOf "sharp") then
      if returnType == RetType.sharp then
        Except.ok (RetVal.sharpV { meta := b, ops := [] })
      else Except.ok (RetVal.bufferV b)
    else if returnType == RetType.stream then
      Except.ok (RetVal.streamV b)
    else Except.error JsErr.invalidReturnType

/-- Whether a bucket read produced a stream. -/
def isStreamResult : Except JsErr RetVal → Bool
  | Except.ok (RetVal.streamV _) => true
  | _ => false

/-- The resize condition of `coerceToRequested` as a standalone Boolean. -/
def resizeCond (img : SharpImg) (rp : RIP) : Bool :=
  (truthyNum rp.width && decide ((rp.width.getD 0) < img.meta.width)) ||
  (truthyNum rp.height && decide ((rp.height.getD 0) < img.meta.height))

/-- The re-encode condition of `coerceToRequested` as a standalone
Boolean. -/
def reencodeCond (img : SharpImg) (rp : RIP) (ext : OutExt) : Bool :=
  (truthyNum rp.quality && decide ((rp.quality.getD 0) < 100)) ||
  getFormatFromExtension ext != img.meta.format

/-- The resize operation `coerceToRequested` would append. -/
def resizeOpOf (rp : RIP) : SharpOp :=
  SharpOp.resize rp.width rp.height (rp.fit.getD Fit.cover)
    (rp.kernel.getD Kernel.lanczos3)
    (if rp.pos.isSome && ((rp.fit.getD Fit.cover) == Fit.cover) then rp.pos
     else none)
    (if rp.bg.isSome && ((rp.fit.getD Fit.cover) == Fit.contain) then rp.bg
     else none)

theorem coerceToRequested_ops (img : SharpImg) (rp : RIP) (ext : OutExt) :
    (coerceToRequested img rp ext).2.ops =
      img.ops ++
        (if resizeCond img rp then [resizeOpOf rp] else []) ++
        (if reencodeCond img rp ext then
          [SharpOp.toFormat (getFormatFromExtension ext)] else []) := by
  by_cases hr : resizeCond img rp = true <;>
    by_cases he : reencodeCond img rp ext = true <;>
    simp only [resizeCond, reencodeCond, Bool.not_eq_true] at hr he <;>
    simp [coerceToRequested, resizeCond, reencodeCond, resizeOpOf, hr, he]

theorem coerceToRequested_meta (img : SharpImg) (rp : RIP) (ext : OutExt) :
    (coerceToRequested img rp ext).2.meta =
      { width :=
          if resizeCond img rp then
            (resizeDims img.meta.width img.meta.height rp.width rp.height
              (rp.fit.getD Fit.cover)).1
          else img.meta.width,
        height :=
          if resizeCond img rp then
            (resizeDims img.meta.width img.meta.height rp.width rp.height
              (rp.fit.getD Fit.cover)).2
          else img.meta.height,
        format :=
          if reencodeCond img rp ext then getFormatFromExtension ext
          else img.meta.format } := by
  by_cases hr : resizeCond img rp = true <;>
    by_cases he : reencodeCond img rp ext = true <;>
    simp only [resizeCond, reencodeCond, Bool.not_eq_true] at hr he <;>
    simp [coerceToRequested, resizeCond, reencodeCond, hr, he]

theorem coerceToRequested_changed (img : SharpImg) (rp : RIP)
    (ext : OutExt) :
    (coerceToRequested img rp ext).1 =
      (resizeCond img rp || reencodeCond img rp ext) := by
  simp only [coerceToRequested, resizeCond, reencodeCond]

/-! Concrete fixtures for counterexamples and witnesses. -/

/-- A canonical parameter set with every field populated and a valid
(single-token) position. -/
def PC1 : CParams :=
  { width := some 40, height := some 25, format := OutputFormat.png,
    quality := 100, fit := Fit.cover, pos := Pos.center,
    bg := strOf "rgba(0,0,0,0)", kernel := Kernel.lanczos3 }

/-- Key of a 40 by 25 rendition of image `i` owned by `u`. -/
def k1000 : JStr := getKeyForImage (strOf "") (strOf "u") (strOf "i")
  (jsObjOf PC1)

/-- The 100 by 50 variant of `PC1`. -/
def PC1b : CParams := { PC1 with width := some 100, height := some 50 }

/-- The 50 by 40 variant of `PC1`. -/
def PC1c : CParams := { PC1 with width := some 50, height := some 40 }

/-- Key of a 100 by 50 rendition of the same image. -/
def k5000 : JStr := getKeyForImage (strOf "") (strOf "u") (strOf "i")
  (jsObjOf PC1b)

/-- Key of a 50 by 40 rendition of the same image. -/
def k2000 : JStr := getKeyForImage (strOf "") (strOf "u") (strOf "i")
  (jsObjOf PC1c)

/-- Cache row whose original key is the 1000-pixel rendition. -/
def rowC1 : CacheRow :=
  { id := strOf "i", user := strOf "u", original_key := k1000,
    url := none, created := 0, id_public := strOf "i:1",
    exp := 9007199254740991 }

/-- Store state with three renditions of the image, of pixel counts 1000,
5000 and 2000, the original being the 1000-pixel one. -/
def stC1 : St :=
  { table := [rowC1],
    bucket := [(k1000, ImgMeta.mk 40 25 OutputFormat.png),
      (k5000, ImgMeta.mk 100 50 OutputFormat.png),
      (k2000, ImgMeta.mk 50 40 OutputFormat.png)] }

/-- C1 counterexample: with renditions of pixel counts 1000, 5000 and 2000
under the id's prefix, `getBestImageByID` returns the 1000-pixel rendition
(the original), not the 5000-pixel one the claim requires. -/
theorem c1_counterexample :
    ((getBestImageByID 5 (strOf "u") (strOf "i") stC1).toOption.map
        (fun r => r.1.meta.width * r.1.meta.height)) = some 1000 ∧
    stC1.bucket.map (fun kv => kv.2.width * kv.2.height) =
      [1000, 5000, 2000] ∧
    listImageKeysById (strOf "") (strOf "u") (strOf "i") stC1 =
      [k1000, k5000, k2000] := by
  refine ⟨?_, by decide, by decide⟩
  decide

/-- C1 (amended): on a cache miss, the source chosen for derivation is
always the rendition stored at the cache entry's `original_key` with that
key's decoded parameters, regardless of any other renditions present. -/
theorem c1_best_source_is_original (now : Nat) (user id : JStr) (st : St)
    (e : CacheEntry) (meta : ImgMeta) (ps : Obj)
    (hrec : getImageFromCacheById now id st = some e)
    (hblob : bucketFind e.original_key st = some meta)
    (hps : getParamsFromKey e.original_key = Except.ok ps) :
    getBestImageByID now user id st =
      Except.ok ({ meta := meta, ops := [] }, ps) := by
  simp only [getBestImageByID, hrec, hblob, hps]

/-- Witness for C1's amended theorem at the concrete three-rendition
state. -/
theorem c1_best_source_is_original_witness :
    getBestImageByID 5 (strOf "u") (strOf "i") stC1 =
      Except.ok ({ meta := ImgMeta.mk 40 25 OutputFormat.png, ops := [] },
        paramsObjOf PC1) :=
  c1_best_source_is_original 5 (strOf "u") (strOf "i") stC1
    (coerceObjectToCacheEntry rowC1) (ImgMeta.mk 40 25 OutputFormat.png)
    (paramsObjOf PC1) (by decide) (by decide) (by decide)

/-- A canonical parameter set whose position is the alias expansion
"right top" (what both "rt" and "righttop" normalize to). -/
def PBadC2 : CParams :=
  { PC1 with pos := Pos.rightTop }

/-- C2 counterexample: a canonical parameter set using the alias-expanded
corner position "right top" encodes fine, but decoding the encoded key
throws `ImageParamsError`, because the schema's `pos` enum has no
space-containing spelling — so decode(encode(P)) does not equal P. -/
theorem c2_counterexample :
    PBadC2.canonical ∧
    getFullPositionName (strOf "rt") = posStr PBadC2.pos ∧
    getFullPositionName (strOf "righttop") = posStr PBadC2.pos ∧
    getParamsFromKey (getKeyForImage (strOf "") (strOf "u1") (strOf "abc")
        (jsObjOf PBadC2)) =
      Except.error DecodeErr.imageParamsError := by
  refine ⟨by decide, by decide, by decide, ?_⟩
  decide

/-- C2 (amended): the key codec round-trips every canonical parameter set
whose position value is one of the schema-enum spellings (owner, id and
prefix free of underscores), field order of the parameter object never
affects the encoded key, and the encoding is injective over canonical
parameter sets. -/
theorem c2_key_codec_amended :
    (∀ (pfx user id : JStr) (P : CParams), '_' ∉ pfx → '_' ∉ user →
      '_' ∉ id → P.canonical → P.posValid →
      getParamsFromKey (getKeyForImage pfx user id (jsObjOf P)) =
        Except.ok (paramsObjOf P)) ∧
    (∀ (pfx user id : JStr) (o₁ o₂ : Obj), o₁.Perm o₂ →
      (o₁.map Prod.fst).Nodup →
      getKeyForImage pfx user id o₁ = getKeyForImage pfx user id o₂) ∧
    (∀ (pfx user id : JStr) (P₁ P₂ : CParams), '_' ∉ pfx → '_' ∉ user →
      '_' ∉ id → P₁.canonical → P₂.canonical →
      getKeyForImage pfx user id (jsObjOf P₁) =
        getKeyForImage pfx user id (jsObjOf P₂) → P₁ = P₂) :=
  ⟨fun pfx user id P h1 h2 h3 h4 h5 =>
    getParamsFromKey_getKeyForImage pfx user id P h1 h2 h3 h4 h5,
   fun pfx user id _ _ hp hn => getKeyForImage_perm pfx user id hp hn,
   fun pfx user id P₁ P₂ h1 h2 h3 h4 h5 h =>
    getKeyForImage_injective pfx user id P₁ P₂ h1 h2 h3 h4 h5 h⟩

/-- Witness for C2's amended theorem: a concrete round trip, a concrete
field-order swap, and a concrete injectivity application. -/
theorem c2_key_codec_amended_witness :
    getParamsFromKey (getKeyForImage (strOf "") (strOf "u1") (strOf "abc")
        (jsObjOf PC1)) = Except.ok (paramsObjOf PC1) ∧
    getKeyForImage (strOf "") (strOf "u1") (strOf "abc")
        [(strOf "width", JsVal.num 400), (strOf "height", JsVal.num 300)] =
      getKeyForImage (strOf "") (strOf "u1") (strOf "abc")
        [(strOf "height", JsVal.num 300), (strOf "width", JsVal.num 400)] ∧
    PC1 = PC1 :=
  ⟨c2_key_codec_amended.1 (strOf "") (strOf "u1") (strOf "abc") PC1
      (by decide) (by decide) (by decide) (by decide) (by decide),
   c2_key_codec_amended.2.1 (strOf "") (strOf "u1") (strOf "abc") _ _
      (List.Perm.swap (strOf "height", JsVal.num 300)
        (strOf "width", JsVal.num 400) []) (by decide),
   c2_key_codec_amended.2.2 (strOf "") (strOf "u1") (strOf "abc") PC1 PC1
      (by decide) (by decide) (by decide) (by decide) (by decide) rfl⟩

/-- Modelled from the spec: the re-encode rule as the specification words
it — re-encode exactly when the requested format differs from the source
rendition's format, or the requested quality is numerically lower than the
source's recorded quality.  Stated only for comparison against the code's
actual condition. -/
def specReencodeRule (rp : RIP) (recordedQuality : Nat)
    (srcFormat : OutputFormat) : Bool :=
  (rp.format != srcFormat) ||
    (match rp.quality with
      | some q => decide (q < recordedQuality)
      | none => false)

/-- An 800 by 600 png source image with an empty pipeline. -/
def img80 : SharpImg :=
  { meta := ImgMeta.mk 800 600 OutputFormat.png, ops := [] }

/-- The source rendition parameters: 800 by 600 at quality 80. -/
def PSrc80 : CParams := { PC1 with width := some 800, height := some 600, quality := 80 }

/-- Key recording the source rendition at quality 80. -/
def kSrc80 : JStr := getKeyForImage (strOf "") (strOf "u") (strOf "i")
  (jsObjOf PSrc80)

/-- A request for the same format at quality 90 and no resize. -/
def rp90 : RIP :=
  { width := none, height := none, quality := some 90, fit := none,
    pos := none, bg := none, kernel := none,
    format := OutputFormat.png }

/-- C3 counterexample: with a source rendition recorded at quality 80 and
a request at quality 90 in the same format, the specification's rule says
no re-encode (90 is not lower than 80), but `coerceToRequested` re-encodes
(its threshold is the constant 100, and it never reads the recorded
quality). -/
theorem c3_counterexample :
    ((getParamsFromKey kSrc80).toOption.bind
        (lookupJs (strOf "quality"))) = some (JsVal.num 80) ∧
    specReencodeRule rp90 80 OutputFormat.png = false ∧
    (coerceToRequested img80 rp90 OutExt.png).1 = true ∧
    SharpOp.toFormat OutputFormat.png ∈
      (coerceToRequested img80 rp90 OutExt.png).2.ops := by
  refine ⟨?_, by decide, by decide, by decide⟩
  decide

/-- C3 (amended): during derivation, a re-encode operation is appended to
the pipeline exactly when the requested quality is set (and nonzero) and
numerically lower than 100, or the requested format differs from the
source's actual metadata format.  The source rendition's recorded quality
plays no role. -/
theorem c3_reencode_condition_amended (img : SharpImg) (rp : RIP)
    (ext : OutExt) :
    (SharpOp.toFormat (getFormatFromExtension ext) ∈
        ((coerceToRequested img rp ext).2.ops.drop img.ops.length)) ↔
      ((∃ q, rp.quality = some q ∧ q ≠ 0 ∧ q < 100) ∨
        getFormatFromExtension ext ≠ img.meta.format) := by
  rw [coerceToRequested_ops, List.append_assoc, List.drop_left]
  constructor
  · intro h
    simp only [List.mem_append] at h
    rcases h with h | h
    · exfalso
      split at h
      · simp [resizeOpOf] at h
      · simp at h
    · split at h
      · rename_i hcond
        simp only [reencodeCond, Bool.or_eq_true, Bool.and_eq_true,
          bne_iff_ne, ne_eq, decide_eq_true_eq] at hcond
        rcases hcond with ⟨hq, hlt⟩ | hf
        · left
          cases hqv : rp.quality with
          | none => rw [hqv] at hq; simp [truthyNum] at hq
          | some q =>
            refine ⟨q, rfl, ?_, ?_⟩
            · rw [hqv] at hq
              simpa [truthyNum] using hq
            · rw [hqv] at hlt
              simpa using hlt
        · right
          exact hf
      · simp at h
  · intro h
    have hcond : reencodeCond img rp ext = true := by
      simp only [reencodeCond, Bool.or_eq_true, Bool.and_eq_true,
        bne_iff_ne, ne_eq, decide_eq_true_eq]
      rcases h with ⟨q, hq, hq0, hlt⟩ | hf
      · left
        rw [hq]
        exact ⟨by simpa [truthyNum] using hq0, by simpa using hlt⟩
      · right
        exact hf
    rw [if_pos hcond]
    simp

/-- C4: upscaling never happens — when every requested dimension is at
least the source's actual dimension, the resize step is skipped entirely:
the output keeps the source's native width and height and no resize
operation is appended to the pipeline. -/
theorem c4_no_upscaling (img : SharpImg) (rp : RIP) (ext : OutExt)
    (hw : ∀ w, rp.width = some w → img.meta.width ≤ w)
    (hh : ∀ h, rp.height = some h → img.meta.height ≤ h) :
    (coerceToRequested img rp ext).2.meta.width = img.meta.width ∧
    (coerceToRequested img rp ext).2.meta.height = img.meta.height ∧
    ∀ op ∈ (coerceToRequested img rp ext).2.ops.drop img.ops.length,
      ∀ w h f k p b, op ≠ SharpOp.resize w h f k p b := by
  have hcond : resizeCond img rp = false := by
    simp only [resizeCond, Bool.or_eq_false_iff, Bool.and_eq_false_iff]
    constructor
    · cases hqv : rp.width with
      | none => left; simp [truthyNum]
      | some w =>
        right
        have := hw w hqv
        simp only [hqv, Option.getD_some, decide_eq_false_iff_not, not_lt]
        omega
    · cases hqv : rp.height with
      | none => left; simp [truthyNum]
      | some h =>
        right
        have := hh h hqv
        simp only [hqv, Option.getD_some, decide_eq_false_iff_not, not_lt]
        omega
  refine ⟨?_, ?_, ?_⟩
  · rw [coerceToRequested_meta]
    simp [hcond]
  · rw [coerceToRequested_meta]
    simp [hcond]
  · intro op hop w h f k p b
    rw [coerceToRequested_ops, List.append_assoc, List.drop_left] at hop
    rw [hcond] at hop
    simp only [Bool.false_eq_true, if_false, List.nil_append] at hop
    split at hop
    · simp only [List.mem_singleton] at hop
      subst hop
      simp
    · simp at hop

/-- Witness for C4 at a concrete oversize request: asking for width 1000
from an 800 by 600 source returns the source's native 800 width. -/
theorem c4_no_upscaling_witness :
    (coerceToRequested img80
        { rp90 with width := some 1000, quality := none }
        OutExt.png).2.meta.width = 800 ∧
    (coerceToRequested img80
        { rp90 with width := some 1000, quality := none }
        OutExt.png).2.meta.height = 600 ∧
    ∀ op ∈ (coerceToRequested img80
        { rp90 with width := some 1000, quality := none }
        OutExt.png).2.ops.drop img80.ops.length,
      ∀ w h f k p b, op ≠ SharpOp.resize w h f k p b :=
  c4_no_upscaling img80 { rp90 with width := some 1000, quality := none }
    OutExt.png
    (fun w hw => by cases hw; decide)
    (fun h hh => by cases hh)

/-- A query string with no parameters set. -/
def qyNone : Query :=
  { w := none, width := none, h := none, height := none, q := none,
    quality := none, fit := none, pos := none, bg := none, kernel := none }

/-- A private cache row owned by `o`. -/
def rowPriv : CacheRow :=
  { id := strOf "i", user := strOf "o", original_key := k1000,
    url := none, created := 0, id_public := strOf "i:0",
    exp := 9007199254740991 }

/-- Store holding only the private image of `rowPriv`. -/
def stPriv : St := { table := [rowPriv], bucket := [] }

/-- A jpeg query object with two failing fields: quality 0 (below the
minimum 1) and quantisation table 99 (above the maximum 8). -/
def qBad9 : Obj :=
  [(strOf "quality", JsVal.num 0),
   (strOf "quantisationTable", JsVal.num 99)]

/-- Witness for C3's amended theorem at the concrete quality-90 request. -/
theorem c3_reencode_condition_amended_witness :
    (SharpOp.toFormat (getFormatFromExtension OutExt.png) ∈
        ((coerceToRequested img80 rp90 OutExt.png).2.ops.drop
          img80.ops.length)) ↔
      ((∃ q, rp90.quality = some q ∧ q ≠ 0 ∧ q < 100) ∨
        getFormatFromExtension OutExt.png ≠ img80.meta.format) :=
  c3_reencode_condition_amended img80 rp90 OutExt.png

/-- C5: requesting a private image as a non-owner (or anonymously) is
observably identical to requesting an absent id — same response (the full
NotFound body), same external calls, and no state change in either run. -/
theorem c5_privacy_indistinguishable (pfx : JStr) (ttl now : Nat)
    (st₁ st₂ : St) (caller : Option JStr) (id : JStr) (ext : OutExt)
    (qy : Query) (e : CacheEntry)
    (habsent : getImageFromCacheById now id st₁ = none)
    (hpriv : getImageFromCacheById now id st₂ = some e)
    (howner : caller ≠ some e.user) (hpub : e.public = false) :
    (getImageRoute pfx ttl now st₁ caller id ext qy).resp =
      (getImageRoute pfx ttl now st₂ caller id ext qy).resp ∧
    (getImageRoute pfx ttl now st₁ caller id ext qy).effs =
      (getImageRoute pfx ttl now st₂ caller id ext qy).effs ∧
    (getImageRoute pfx ttl now st₁ caller id ext qy).resp =
      { status := 404, body := RespBody.errNotFoundFull } ∧
    (getImageRoute pfx ttl now st₁ caller id ext qy).st = st₁ ∧
    (getImageRoute pfx ttl now st₂ caller id ext qy).st = st₂ := by
  have hbne : (caller != some e.user) = true := bne_iff_ne.mpr howner
  simp only [getImageRoute, habsent, hpriv, hbne, hpub, Bool.not_false,
    Bool.and_self, if_true]
  exact ⟨trivial, trivial, trivial, trivial, trivial⟩

/-- Witness for C5 at concrete states: an empty store versus a store with
a private image owned by someone else. -/
theorem c5_privacy_indistinguishable_witness :
    (getImageRoute (strOf "") 60 5 { table := [], bucket := [] } none
        (strOf "i") OutExt.png qyNone).resp =
      (getImageRoute (strOf "") 60 5 stPriv none (strOf "i") OutExt.png
        qyNone).resp ∧
    (getImageRoute (strOf "") 60 5 { table := [], bucket := [] } none
        (strOf "i") OutExt.png qyNone).effs =
      (getImageRoute (strOf "") 60 5 stPriv none (strOf "i") OutExt.png
        qyNone).effs ∧
    (getImageRoute (strOf "") 60 5 { table := [], bucket := [] } none
        (strOf "i") OutExt.png qyNone).resp =
      { status := 404, body := RespBody.errNotFoundFull } ∧
    (getImageRoute (strOf "") 60 5 { table := [], bucket := [] } none
        (strOf "i") OutExt.png qyNone).st =
      { table := [], bucket := [] } ∧
    (getImageRoute (strOf "") 60 5 stPriv none (strOf "i") OutExt.png
        qyNone).st = stPriv :=
  c5_privacy_indistinguishable (strOf "") 60 5
    { table := [], bucket := [] } stPriv none (strOf "i") OutExt.png
    qyNone (coerceObjectToCacheEntry rowPriv) (by decide) (by decide)
    (by decide) (by decide)

/-- Whether an effect is an Object Store write. -/
def isPut : Eff → Bool
  | Eff.bPut _ => true
  | _ => false

/-- C7: on the read path a new rendition is written to the Object Store
exactly when the derivation reported a change; an unchanged derivation and
an exact hit leave the store untouched. -/
theorem c7_write_iff_changed (pfx : JStr) (ttl now : Nat) (st : St)
    (caller : Option JStr) (id : JStr) (ext : OutExt) (qy : Query) :
    (((getImageRoute pfx ttl now st caller id ext qy).effs.any isPut) =
        true ↔
      (getImageRoute pfx ttl now st caller id ext qy).outcome =
        Outcome.derived true) ∧
    ((getImageRoute pfx ttl now st caller id ext qy).outcome =
        Outcome.derived false →
      (getImageRoute pfx ttl now st caller id ext qy).st = st) ∧
    ((getImageRoute pfx ttl now st caller id ext qy).outcome =
        Outcome.exactHit →
      (getImageRoute pfx ttl now st caller id ext qy).st = st) := by
  unfold getImageRoute
  rcases hrec : getImageFromCacheById now id st with _ | e
  · simp [isPut]
  · by_cases hdeny : ((caller != some e.user) && !e.public) = true
    · simp [hdeny, isPut]
    · simp only [hdeny, Bool.false_eq_true, if_false]
      rcases hhit : bucketFind (getKeyForImage pfx e.user id
          (ripObj (requestedParamsOf qy ext))) st with _ | m
      · rcases hbest : getBestImageByID now e.user id st with err | ok
        · rcases err <;> simp [isPut]
        · by_cases hch : (coerceToRequested ok.1
              (requestedParamsOf qy ext) ext).1 = true
          · simp [hch, isPut]
          · simp only [Bool.not_eq_true] at hch
            simp [hch, isPut]
      · simp [isPut]

/-- Witness for C7 at the concrete three-rendition state with a request
that needs derivation. -/
theorem c7_write_iff_changed_witness :
    (((getImageRoute (strOf "") 60 5 stC1 (some (strOf "u")) (strOf "i")
          OutExt.png qyNone).effs.any isPut) = true ↔
      (getImageRoute (strOf "") 60 5 stC1 (some (strOf "u")) (strOf "i")
          OutExt.png qyNone).outcome = Outcome.derived true) ∧
    ((getImageRoute (strOf "") 60 5 stC1 (some (strOf "u")) (strOf "i")
          OutExt.png qyNone).outcome = Outcome.derived false →
      (getImageRoute (strOf "") 60 5 stC1 (some (strOf "u")) (strOf "i")
          OutExt.png qyNone).st = stC1) ∧
    ((getImageRoute (strOf "") 60 5 stC1 (some (strOf "u")) (strOf "i")
          OutExt.png qyNone).outcome = Outcome.exactHit →
      (getImageRoute (strOf "") 60 5 stC1 (some (strOf "u")) (strOf "i")
          OutExt.png qyNone).st = stC1) :=
  c7_write_iff_changed (strOf "") 60 5 stC1 (some (strOf "u")) (strOf "i")
    OutExt.png qyNone

/-- C9 counterexample: a jpeg query with two invalid fields (quality 0 and
quantisation table 99) produces a single-element error list — only the
first failing field — while two fields actually failed. -/
theorem c9_counterexample :
    (validateJpegExportOptions qBad9).1 = false ∧
    (validateJpegExportOptions qBad9).2 = [strOf "quality"] ∧
    failedJpegFields qBad9 =
      [strOf "quality", strOf "quantisationTable"] := by
  refine ⟨by decide, by decide, by decide⟩

/-- C9 (amended): the compiled validator is built with Ajv's default
`allErrors: false`, so the reported error list is always the first failing
field only — the take-1 prefix of the full failure list — never the full
enumeration. -/
theorem c9_first_error_only_amended (o : Obj) :
    (validateJpegExportOptions o).2 = (failedJpegFields o).take 1 ∧
    (validateJpegExportOptions o).2.length ≤ 1 := by
  constructor
  · rfl
  · show ((failedJpegFields o).take 1).length ≤ 1
    rw [List.length_take]
    omega

/-- Witness for C9's amended theorem at the two-failure input. -/
theorem c9_first_error_only_amended_witness :
    (validateJpegExportOptions qBad9).2 = (failedJpegFields qBad9).take 1 ∧
    (validateJpegExportOptions qBad9).2.length ≤ 1 :=
  c9_first_error_only_amended qBad9

/-- C10: `getImageFromBucketByKey` never returns a stream — the branch
condition is always truthy because its right operand is the nonempty
string literal "sharp" — so every present body comes back as a sharp
object when requested as such and as a buffer otherwise (including for
returnType "stream"), and an absent body throws ImageDoesNotExist. -/
theorem c10_stream_branch_unreachable (body : Option ImgMeta)
    (rt : RetType) :
    isStreamResult (getImageFromBucketByKey body rt) = false ∧
    (∀ b : ImgMeta, getImageFromBucketByKey (some b) rt =
      Except.ok (if rt = RetType.sharp then
        RetVal.sharpV { meta := b, ops := [] } else RetVal.bufferV b)) ∧
    getImageFromBucketByKey none rt = Except.error JsErr.imageDoesNotExist
    := by
  refine ⟨?_, ?_, rfl⟩
  · cases body with
    | none => rfl
    | some b => cases rt <;> rfl
  · intro b
    cases rt <;> rfl

/-- A url-cache miss persists as time moves forward: rows only expire, so
a table with no live matching row at `now₁` has none at any `now₂ ≥ now₁`. -/
theorem checkCacheForUrl_none_mono (now₁ now₂ : Nat) (url : JStr) (st : St)
    (h12 : now₁ ≤ now₂) (h : checkCacheForUrl now₁ url st = none) :
    (liveRows now₂ st.table).find? (fun r => r.url == some url) = none := by
  rw [checkCacheForUrl] at h
  have h' : (liveRows now₁ st.table).find? (fun r => r.url == some url)
      = none := by
    cases hf : (liveRows now₁ st.table).find? (fun r => r.url == some url)
      with
    | none => rfl
    | some r => rw [hf] at h; simp at h
  rw [List.find?_eq_none] at h' ⊢
  intro r hr
  rw [liveRows, List.mem_filter, decide_eq_true_eq] at hr
  exact h' r (by
    rw [liveRows, List.mem_filter, decide_eq_true_eq]
    exact ⟨hr.1, by omega⟩)

/-- C6: ingesting the same URL twice without force.  The first run (url
not yet cached, valid image fetched, fresh id unused) stores the image and
answers 201 with the fresh id; the second run, while the entry is still
live, answers 304 with the very same id, touches neither store, and the
two runs together make exactly one upstream fetch. -/
theorem c6_dedup_by_url (pfx : JStr) (ttl now₁ now₂ : Nat) (st : St)
    (user url freshId : JStr) (fetch : JStr → FetchRes) (meta : ImgMeta)
    (r₁ r₂ : Resp × St × List Eff)
    (hfetch : fetch url = FetchRes.okBytes (some meta))
    (hmiss : checkCacheForUrl now₁ url st = none)
    (hfresh : (liveRows now₁ st.table).any (fun r => r.id == freshId)
      = false)
    (h12 : now₁ ≤ now₂) (hlive : now₂ < now₁ + ttl)
    (hr₁ : r₁ = postImageUrlRoute pfx ttl now₁ st user url false fetch
      freshId)
    (hr₂ : r₂ = postImageUrlRoute pfx ttl now₂ r₁.2.1 user url false fetch
      freshId) :
    r₁.1 = { status := 201, body := RespBody.jsonId freshId } ∧
    r₂.1 = { status := 304, body := RespBody.jsonId freshId } ∧
    r₂.2.1 = r₁.2.1 ∧
    r₂.2.2 = [Eff.dbQueryUrl url] ∧
    (r₁.2.2 ++ r₂.2.2).count (Eff.netFetch url) = 1 := by
  have hput : ∀ key m, (bucketPut key m st).table = st.table := by
    intro key m; rfl
  simp only [postImageUrlRoute, hmiss, postImageUrlRoute.postFetchUrl,
    hfetch, Option.getD_none, uploadImageToBucket,
    createNewImageInCache, hput, hfresh, Bool.false_eq_true, if_false]
    at hr₁
  have htab : r₁.2.1.table = st.table ++
      [{ id := freshId, user := user,
         original_key := getKeyForImage pfx user freshId
           (uploadImageToBucket pfx user freshId
             { meta := meta, ops := [] } [] st).1,
         url := some url, created := now₁,
         id_public := freshId ++ strOf ":" ++ strOf "1",
         exp := now₁ + ttl }] := by
    rw [hr₁]; rfl
  have hresp₁ : r₁.1 = { status := 201, body := RespBody.jsonId freshId }
    := by rw [hr₁]
  have heffs₁ : r₁.2.2 = [Eff.dbQueryUrl url, Eff.netFetch url,
      Eff.bPut (uploadImageToBucket pfx user freshId
        { meta := meta, ops := [] } [] st).2.1,
      Eff.dbPutItem freshId] := by rw [hr₁]; rfl
  have hhit : checkCacheForUrl now₂ url r₁.2.1 = some
      (coerceObjectToCacheEntry
        { id := freshId, user := user,
          original_key := getKeyForImage pfx user freshId
            (uploadImageToBucket pfx user freshId
              { meta := meta, ops := [] } [] st).1,
          url := some url, created := now₁,
          id_public := freshId ++ strOf ":" ++ strOf "1",
          exp := now₁ + ttl }) := by
    rw [checkCacheForUrl, htab, liveRows, List.filter_append,
      List.find?_append]
    rw [show List.filter (fun r => decide (now₂ < r.exp)) st.table =
      liveRows now₂ st.table from rfl]
    rw [checkCacheForUrl_none_mono now₁ now₂ url st h12 hmiss]
    simp [List.filter_cons, List.find?_cons, hlive]
  refine ⟨hresp₁, ?_, ?_, ?_, ?_⟩
  · rw [hr₂]
    simp only [postImageUrlRoute, hhit]
    rfl
  · rw [hr₂]
    simp only [postImageUrlRoute, hhit]
    rfl
  · rw [hr₂]
    simp only [postImageUrlRoute, hhit]
    rfl
  · rw [heffs₁, hr₂]
    simp only [postImageUrlRoute, hhit, Bool.not_false, if_true]
    simp [List.count_cons, List.count_append]

/-- A stub upstream fetcher that always serves a 40 by 25 png. -/
def fetchC6 : JStr → FetchRes :=
  fun _ => FetchRes.okBytes (some (ImgMeta.mk 40 25 OutputFormat.png))

/-- First ingest of the url against an empty store at time 5. -/
def r1C6 : Resp × St × List Eff :=
  postImageUrlRoute (strOf "") 60 5 { table := [], bucket := [] }
    (strOf "u") (strOf "http://x") false fetchC6 (strOf "f")

/-- Second ingest of the same url at time 10. -/
def r2C6 : Resp × St × List Eff :=
  postImageUrlRoute (strOf "") 60 10 r1C6.2.1 (strOf "u")
    (strOf "http://x") false fetchC6 (strOf "f")

/-- A deleter that succeeds on every key. -/
def delOkC8 : JStr → DelRes := fun _ => DelRes.ok

/-- Witness for C6 at a concrete empty store and a stub fetcher. -/
theorem c6_dedup_by_url_witness :
    r1C6.1 = { status := 201, body := RespBody.jsonId (strOf "f") } ∧
    r2C6.1 = { status := 304, body := RespBody.jsonId (strOf "f") } ∧
    r2C6.2.1 = r1C6.2.1 ∧
    r2C6.2.2 = [Eff.dbQueryUrl (strOf "http://x")] ∧
    (r1C6.2.2 ++ r2C6.2.2).count (Eff.netFetch (strOf "http://x")) = 1 :=
  c6_dedup_by_url (strOf "") 60 5 10 { table := [], bucket := [] }
    (strOf "u") (strOf "http://x") (strOf "f") fetchC6
    (ImgMeta.mk 40 25 OutputFormat.png) r1C6 r2C6 rfl (by decide)
    (by decide) (by decide) (by decide) rfl rfl

/-- C8: on a delete with at least one stored rendition key, the cache row
is removed before any blob delete (the DynamoDB delete precedes every
bucket delete in the trace, and every listed key is deleted); when no key
fails with an error other than NoSuchKey the route still answers 200 (the
absent-key failure is swallowed); when the first failure is another error
the route answers 500; and in every case the metadata row stays removed. -/
theorem c8_delete_path (pfx : JStr) (st : St) (user id : JStr)
    (del : JStr → DelRes) (toDelete : List JStr)
    (htd : toDelete = listImageKeysById pfx user id st)
    (hne : toDelete ≠ []) :
    (deleteImageRoute pfx st user id del).2.2 =
      Eff.bList (pfx ++ user ++ strOf "/" ++ id) :: Eff.dbDeleteItem id ::
        toDelete.map Eff.bDelete ∧
    (deleteImageRoute pfx st user id del).2.1.table =
      st.table.filter (fun r => r.id != id) ∧
    ((∀ k ∈ toDelete, del k ≠ DelRes.otherError) →
      (deleteImageRoute pfx st user id del).1 =
        { status := 200, body := RespBody.emptyBody }) ∧
    (∀ k, (toDelete.filter (fun k => del k != DelRes.ok)).head? = some k →
      del k = DelRes.otherError →
      (deleteImageRoute pfx st user id del).1 =
        { status := 500, body := RespBody.thrown JsErr.storageFailure }) := by
  rw [deleteImageRoute, ← htd, if_neg hne]
  refine ⟨?_, ?_, ?_, ?_⟩
  · cases hh : (toDelete.filter (fun k => del k != DelRes.ok)).head? with
    | none => simp only [hh]
    | some k =>
      simp only [hh]
      cases del k <;> rfl
  · cases hh : (toDelete.filter (fun k => del k != DelRes.ok)).head? with
    | none => simp only [hh]; rfl
    | some k =>
      simp only [hh]
      cases del k <;> rfl
  · intro hno
    cases hh : (toDelete.filter (fun k => del k != DelRes.ok)).head? with
    | none => simp only [hh]
    | some k =>
      have hk : k ∈ toDelete.filter (fun k => del k != DelRes.ok) :=
        List.mem_of_mem_head? hh
      rw [List.mem_filter, bne_iff_ne] at hk
      have := hno k hk.1
      simp only [hh]
      cases hd : del k with
      | ok => exact absurd hd hk.2
      | noSuchKey => rfl
      | otherError => exact absurd hd this
  · intro k hh hd
    simp only [hh, hd]

/-- Witness for C8 at the concrete three-rendition state with a deleter
that succeeds on every key. -/
theorem c8_delete_path_witness :
    (deleteImageRoute (strOf "") stC1 (strOf "u") (strOf "i") delOkC8).2.2
      = Eff.bList (strOf "" ++ strOf "u" ++ strOf "/" ++ strOf "i") ::
        Eff.dbDeleteItem (strOf "i") ::
        [k1000, k5000, k2000].map Eff.bDelete ∧
    (deleteImageRoute (strOf "") stC1 (strOf "u") (strOf "i")
        delOkC8).2.1.table =
      stC1.table.filter (fun r => r.id != strOf "i") ∧
    ((∀ k ∈ [k1000, k5000, k2000], delOkC8 k ≠ DelRes.otherError) →
      (deleteImageRoute (strOf "") stC1 (strOf "u") (strOf "i")
          delOkC8).1 =
        { status := 200, body := RespBody.emptyBody }) ∧
    (∀ k, (([k1000, k5000, k2000].filter
          (fun k => delOkC8 k != DelRes.ok))).head? = some k →
      delOkC8 k = DelRes.otherError →
      (deleteImageRoute (strOf "") stC1 (strOf "u") (strOf "i")
          delOkC8).1 =
        { status := 500, body := RespBody.thrown JsErr.storageFailure }) :=
  c8_delete_path (strOf "") stC1 (strOf "u") (strOf "i") delOkC8
    [k1000, k5000, k2000] (by decide) (by decide)

end ImageService
